import Mathlib

/-!
Verification development for the red-squirrel chess engine core.

The Python sources (`legal_moves.py`, `evaluation.py`, `engine/search.py`)
are shallowly embedded: the mutable 8x8 board (a list of lists of
one-character strings) becomes a total function from integer coordinates to
characters, in-place mutation becomes functional update (`bset`), and the
simulate/revert pattern of the Python legality helpers becomes a pure
computation on the updated board (the reverts are exact on every code path
exercised here, so the pure reading is faithful to the returned values and
to the net board effect).  All Python `int` arithmetic is `Int`; every
index the embedded code reads is bounds-guarded exactly where the source
guards it.
-/

set_option maxRecDepth 100000

namespace RedSquirrel

abbrev Pos := Int × Int

/-- A board is a total map from (row, column) to the cell character:
`'.'` for empty, uppercase for White, lowercase for Black.  This embeds the
Python 8x8 list-of-lists; only coordinates in `[0,8) x [0,8)` are ever read
by the embedded code on the paths the source guards. -/
abbrev Board := Pos → Char

/-- Functional update of one square: the embedding of `board[r][c] = ch`. -/
def bset (b : Board) (p : Pos) (ch : Char) : Board :=
  fun q => if q = p then ch else b q

@[simp] theorem bset_same (b : Board) (p : Pos) (ch : Char) : bset b p ch p = ch := by
  simp [bset]

theorem bset_ne (b : Board) (p : Pos) (ch : Char) {q : Pos} (h : q ≠ p) :
    bset b p ch q = b q := by
  simp [bset, h]

/-- Row-major enumeration of the 64 squares: the embedding of
`for row in range(8): for col in range(8): ...`. -/
def squares64 : List Pos :=
  (List.range 8).flatMap fun r => (List.range 8).map fun c => (Int.ofNat r, Int.ofNat c)

theorem mem_squares64 {p : Pos} :
    p ∈ squares64 ↔ 0 ≤ p.1 ∧ p.1 < 8 ∧ 0 ≤ p.2 ∧ p.2 < 8 := by
  obtain ⟨r, c⟩ := p
  constructor
  · intro h
    obtain ⟨a, ha, h2⟩ := List.mem_flatMap.1 h
    obtain ⟨b, hb, h3⟩ := List.mem_map.1 h2
    rw [List.mem_range] at ha hb
    rw [Prod.mk.injEq] at h3
    obtain ⟨e1, e2⟩ := h3
    simp only [Int.ofNat_eq_coe] at e1 e2
    refine ⟨?_, ?_, ?_, ?_⟩ <;> omega
  · rintro ⟨h1, h2, h3, h4⟩
    refine List.mem_flatMap.2 ⟨r.toNat, List.mem_range.2 (by omega), ?_⟩
    refine List.mem_map.2 ⟨c.toNat, List.mem_range.2 (by omega), ?_⟩
    rw [Prod.mk.injEq]
    refine ⟨?_, ?_⟩ <;> simp only [Int.ofNat_eq_coe] <;> omega

/-! ### legal_moves.py -/

/-- `is_promotion_move(from_pos, to_pos, board_state, white_on_bottom)`. -/
def is_promotion_move (from_pos to_pos : Pos) (board_state : Board)
    (_white_on_bottom : Bool := true) : Bool :=
  let piece := board_state from_pos
  if ¬(piece = 'P' ∨ piece = 'p') then false
  else if piece = 'P' ∧ to_pos.1 = 0 then true
  else if piece = 'p' ∧ to_pos.1 = 7 then true
  else false

/-- `get_promoted_piece(piece_type, is_white)`. -/
def get_promoted_piece (piece_type : Char) (is_white : Bool) : Char :=
  if is_white then piece_type.toUpper else piece_type.toLower

/-- `get_pawn_direction(piece, white_on_bottom)`: -1 for White, +1 for Black. -/
def get_pawn_direction (piece : Char) (_white_on_bottom : Bool := true) : Int :=
  if piece.isUpper then -1 else 1

/-- `get_pawn_start_row(piece, white_on_bottom)`. -/
def get_pawn_start_row (piece : Char) (_white_on_bottom : Bool := true) : Int :=
  if piece.isUpper then 6 else 1

/-- `get_pawn_moves(position, board_state, white_on_bottom, last_pawn_move)`.
The four Python append blocks (forward/double, left capture, right capture,
the two en-passant neighbour checks) become concatenated sublists in the
same order. -/
def get_pawn_moves (position : Pos) (board_state : Board) (white_on_bottom : Bool)
    (last_pawn_move : Option Pos) : List Pos :=
  let row := position.1
  let col := position.2
  let piece := board_state position
  let direction := get_pawn_direction piece white_on_bottom
  let start_r := get_pawn_start_row piece white_on_bottom
  let forward : List Pos :=
    if 0 ≤ row + direction ∧ row + direction < 8 ∧ board_state (row + direction, col) = '.' then
      (row + direction, col) ::
        (if row = start_r ∧ 0 ≤ row + 2 * direction ∧ row + 2 * direction < 8 ∧
            board_state (row + 2 * direction, col) = '.' then
          [(row + 2 * direction, col)]
        else [])
    else []
  let capL : List Pos :=
    if col > 0 ∧ 0 ≤ row + direction ∧ row + direction < 8 then
      let target_piece := board_state (row + direction, col - 1)
      if target_piece ≠ '.' ∧ piece.isUpper ≠ target_piece.isUpper then
        [(row + direction, col - 1)]
      else []
    else []
  let capR : List Pos :=
    if col < 7 ∧ 0 ≤ row + direction ∧ row + direction < 8 then
      let target_piece := board_state (row + direction, col + 1)
      if target_piece ≠ '.' ∧ piece.isUpper ≠ target_piece.isUpper then
        [(row + direction, col + 1)]
      else []
    else []
  let ep_row : Int := if piece.isUpper then 3 else 4
  let epL : List Pos :=
    if row = ep_row ∧ last_pawn_move ≠ none ∧ col > 0 then
      let enemy := board_state (row, col - 1)
      if (0 ≤ row ∧ row < 8 ∧ 0 ≤ col - 1 ∧ col - 1 < 8) ∧ enemy ≠ '.' ∧
          piece.isUpper ≠ enemy.isUpper ∧ last_pawn_move = some (row, col - 1) then
        if 0 ≤ row + direction ∧ row + direction < 8 ∧ 0 ≤ col - 1 ∧ col - 1 < 8 ∧
            board_state (row + direction, col - 1) = '.' then
          [(row + direction, col - 1)]
        else []
      else []
    else []
  let epR : List Pos :=
    if row = ep_row ∧ last_pawn_move ≠ none ∧ col < 7 then
      let enemy := board_state (row, col + 1)
      if (0 ≤ row ∧ row < 8 ∧ 0 ≤ col + 1 ∧ col + 1 < 8) ∧ enemy ≠ '.' ∧
          piece.isUpper ≠ enemy.isUpper ∧ last_pawn_move = some (row, col + 1) then
        if 0 ≤ row + direction ∧ row + direction < 8 ∧ 0 ≤ col + 1 ∧ col + 1 < 8 ∧
            board_state (row + direction, col + 1) = '.' then
          [(row + direction, col + 1)]
        else []
      else []
    else []
  forward ++ capL ++ capR ++ epL ++ epR

/-- One knight/king-style offset target, kept when on the board and not
occupied by a friendly piece. -/
def offset_targets (piece : Char) (board_state : Board) (candidates : List Pos) : List Pos :=
  candidates.filter fun p =>
    decide (0 ≤ p.1 ∧ p.1 < 8 ∧ 0 ≤ p.2 ∧ p.2 < 8) &&
      (let target_piece := board_state p
       decide (target_piece = '.' ∨ piece.isUpper ≠ target_piece.isUpper))

/-- `get_knight_moves(position, board_state)`. -/
def get_knight_moves (position : Pos) (board_state : Board) : List Pos :=
  let row := position.1
  let col := position.2
  let piece := board_state position
  offset_targets piece board_state
    [(row - 2, col - 1), (row - 2, col + 1),
     (row - 1, col - 2), (row - 1, col + 2),
     (row + 1, col - 2), (row + 1, col + 2),
     (row + 2, col - 1), (row + 2, col + 1)]

/-- The body of the `while` loop in `get_linear_moves`, walking one
direction vector until blocked; fuel 8 dominates the at most 7 iterations
possible inside the 8x8 board. -/
def walk_direction (board_state : Board) (piece : Char) (dr dc : Int) :
    Nat → Int → Int → List Pos
  | 0, _, _ => []
  | fuel + 1, row, col =>
    let r := row + dr
    let c := col + dc
    if 0 ≤ r ∧ r < 8 ∧ 0 ≤ c ∧ c < 8 then
      let target_piece := board_state (r, c)
      if target_piece = '.' then (r, c) :: walk_direction board_state piece dr dc fuel r c
      else if piece.isUpper ≠ target_piece.isUpper then [(r, c)]
      else []
    else []

/-- `get_linear_moves(row, col, directions, piece, board_state)`. -/
def get_linear_moves (row col : Int) (directions : List (Int × Int)) (piece : Char)
    (board_state : Board) : List Pos :=
  directions.flatMap fun d => walk_direction board_state piece d.1 d.2 8 row col

/-- `get_rook_moves(position, board_state)`. -/
def get_rook_moves (position : Pos) (board_state : Board) : List Pos :=
  get_linear_moves position.1 position.2 [(0, 1), (1, 0), (0, -1), (-1, 0)]
    (board_state position) board_state

/-- `get_bishop_moves(position, board_state)`. -/
def get_bishop_moves (position : Pos) (board_state : Board) : List Pos :=
  get_linear_moves position.1 position.2 [(1, 1), (1, -1), (-1, 1), (-1, -1)]
    (board_state position) board_state

/-- `get_queen_moves(position, board_state)`. -/
def get_queen_moves (position : Pos) (board_state : Board) : List Pos :=
  get_linear_moves position.1 position.2
    [(0, 1), (1, 0), (0, -1), (-1, 0), (1, 1), (1, -1), (-1, 1), (-1, -1)]
    (board_state position) board_state

/-- `get_king_moves(position, board_state)`. -/
def get_king_moves (position : Pos) (board_state : Board) : List Pos :=
  let row := position.1
  let col := position.2
  let piece := board_state position
  offset_targets piece board_state
    [(row - 1, col), (row + 1, col),
     (row, col - 1), (row, col + 1),
     (row - 1, col - 1), (row - 1, col + 1),
     (row + 1, col - 1), (row + 1, col + 1)]

/-- `calculate_valid_moves(position, board_state, white_on_bottom, last_pawn_move)`. -/
def calculate_valid_moves (position : Pos) (board_state : Board) (white_on_bottom : Bool)
    (last_pawn_move : Option Pos) : List Pos :=
  let piece := board_state position
  if piece = 'P' ∨ piece = 'p' then get_pawn_moves position board_state white_on_bottom last_pawn_move
  else if piece = 'N' ∨ piece = 'n' then get_knight_moves position board_state
  else if piece = 'R' ∨ piece = 'r' then get_rook_moves position board_state
  else if piece = 'B' ∨ piece = 'b' then get_bishop_moves position board_state
  else if piece = 'Q' ∨ piece = 'q' then get_queen_moves position board_state
  else if piece = 'K' ∨ piece = 'k' then get_king_moves position board_state
  else []

/-- The king-locating scan at the start of `is_in_check`: first matching
square in row-major order, or `none`. -/
def king_position (player_color : String) (board_state : Board) : Option Pos :=
  (squares64.filter fun p =>
    decide ((player_color = "white" ∧ board_state p = 'K') ∨
            (player_color = "black" ∧ board_state p = 'k'))).head?

/-- `is_in_check(player_color, board_state, white_on_bottom)`. -/
def is_in_check (player_color : String) (board_state : Board) (white_on_bottom : Bool) : Bool :=
  match king_position player_color board_state with
  | none => false
  | some kp =>
    let opponent_color := if player_color = "white" then "black" else "white"
    squares64.any fun p =>
      let piece := board_state p
      (decide ((opponent_color = "white" ∧ piece.isUpper) ∨
               (opponent_color = "black" ∧ piece.isLower))) &&
        decide (kp ∈ calculate_valid_moves p board_state white_on_bottom none)

/-- `en_passant(start, end, piece, board_state, last_pawn_move, white_on_bottom)`. -/
def en_passant (start endp : Pos) (piece : Char) (board_state : Board)
    (last_pawn_move : Option Pos) (white_on_bottom : Bool) : Bool :=
  let start_col := start.2
  let end_row := endp.1
  let end_col := endp.2
  if piece.isUpper then
    if (start_col - end_col).natAbs = 1 ∧ board_state endp = '.' then
      let direction := get_pawn_direction piece white_on_bottom
      let enemy_row := end_row - direction
      decide (0 ≤ enemy_row ∧ enemy_row < 8 ∧ last_pawn_move = some (enemy_row, end_col) ∧
              board_state (enemy_row, end_col) = 'p')
    else false
  else
    if (start_col - end_col).natAbs = 1 ∧ board_state endp = '.' then
      let direction := get_pawn_direction piece white_on_bottom
      let enemy_row := end_row - direction
      decide (0 ≤ enemy_row ∧ enemy_row < 8 ∧ last_pawn_move = some (enemy_row, end_col) ∧
              board_state (enemy_row, end_col) = 'P')
    else false

/-- `leaves_king_in_check(start, end, board_state, current_turn, white_on_bottom,
last_pawn_move)`.  The Python function mutates, queries, and reverts; the
embedding computes the query on the mutated board.  Note that the source
calls `en_passant` *after* writing the moving piece onto the destination
square, so its en-passant simulation branch tests the already-filled square. -/
def leaves_king_in_check (start endp : Pos) (board_state : Board) (current_turn : String)
    (white_on_bottom : Bool) (last_pawn_move : Option Pos) : Bool :=
  let piece := board_state start
  let b1 := bset (bset board_state start '.') endp piece
  let is_en_passant_capture := en_passant start endp piece b1 last_pawn_move white_on_bottom
  let b2 :=
    if is_en_passant_capture then
      let direction := get_pawn_direction piece white_on_bottom
      bset b1 (endp.1 - direction, endp.2) '.'
    else b1
  is_in_check current_turn b2 white_on_bottom

/-- `squares_under_attack(squares, player_color, board_state, white_on_bottom)`:
each square temporarily receives a king of `player_color` before the
`is_in_check` query (the Python revert is exact, so the pure reading drops it). -/
def squares_under_attack (squares : List Pos) (player_color : String) (board_state : Board)
    (white_on_bottom : Bool) : Bool :=
  squares.any fun p =>
    let b1 := bset board_state p (if player_color = "white" then 'K' else 'k')
    is_in_check player_color b1 white_on_bottom

/-- `calculate_castling_moves(row, col, piece, board_state, white_on_bottom, flags...)`.
The `range(left_rook+1, king_col)` and `range(king_col+1, right_rook)` path
columns are the literal squares listed here. -/
def calculate_castling_moves (row col : Int) (piece : Char) (board_state : Board)
    (white_on_bottom : Bool)
    (white_king_moved white_rook_left_moved white_rook_right_moved : Bool)
    (black_king_moved black_rook_left_moved black_rook_right_moved : Bool) : List Pos :=
  let white : Bool := piece.isUpper
  let player_color : String := if white then "white" else "black"
  let king_row : Int := if white then 7 else 0
  let king_col : Int := 4
  let left_rook_pos : Pos := (king_row, 0)
  let right_rook_pos : Pos := (king_row, 7)
  let king_moved := if white then white_king_moved else black_king_moved
  let rook_left_moved := if white then white_rook_left_moved else black_rook_left_moved
  let rook_right_moved := if white then white_rook_right_moved else black_rook_right_moved
  let expected_rook : Char := if white then 'R' else 'r'
  if (row, col) ≠ (king_row, king_col) then []
  else
    let qside : List Pos :=
      if ¬king_moved ∧ ¬rook_left_moved ∧ board_state left_rook_pos = expected_rook ∧
          board_state (king_row, 1) = '.' ∧ board_state (king_row, 2) = '.' ∧
          board_state (king_row, 3) = '.' ∧
          is_in_check player_color board_state white_on_bottom = false ∧
          squares_under_attack [(king_row, king_col - 1), (king_row, king_col - 2)]
            player_color board_state white_on_bottom = false then
        [(king_row, king_col - 2)]
      else []
    let kside : List Pos :=
      if ¬king_moved ∧ ¬rook_right_moved ∧ board_state right_rook_pos = expected_rook ∧
          board_state (king_row, 5) = '.' ∧ board_state (king_row, 6) = '.' ∧
          is_in_check player_color board_state white_on_bottom = false ∧
          squares_under_attack [(king_row, king_col + 1), (king_row, king_col + 2)]
            player_color board_state white_on_bottom = false then
        [(king_row, king_col + 2)]
      else []
    qside ++ kside

/-! ### evaluation.py -/

/-- `PIECE_VALUES.get(ptype, 0)`. -/
def piece_value (ptype : Char) : Int :=
  if ptype = 'P' then 100
  else if ptype = 'N' then 320
  else if ptype = 'B' then 330
  else if ptype = 'R' then 500
  else if ptype = 'Q' then 900
  else if ptype = 'K' then 0
  else 0

def PAWN_TABLE : List (List Int) :=
  [[0, 0, 0, 0, 0, 0, 0, 0],
   [50, 50, 50, 50, 50, 50, 50, 50],
   [10, 10, 20, 30, 30, 20, 10, 10],
   [5, 5, 10, 25, 25, 10, 5, 5],
   [0, 0, 0, 20, 20, 0, 0, 0],
   [5, -5, -10, 0, 0, -10, -5, 5],
   [5, 10, 10, -20, -20, 10, 10, 5],
   [0, 0, 0, 0, 0, 0, 0, 0]]

def KNIGHT_TABLE : List (List Int) :=
  [[-50, -40, -30, -30, -30, -30, -40, -50],
   [-40, -20, 0, 5, 5, 0, -20, -40],
   [-30, 5, 10, 15, 15, 10, 5, -30],
   [-30, 0, 15, 20, 20, 15, 0, -30],
   [-30, 5, 15, 20, 20, 15, 5, -30],
   [-30, 0, 10, 15, 15, 10, 0, -30],
   [-40, -20, 0, 0, 0, 0, -20, -40],
   [-50, -40, -30, -30, -30, -30, -40, -50]]

def BISHOP_TABLE : List (List Int) :=
  [[-20, -10, -10, -10, -10, -10, -10, -20],
   [-10, 5, 0, 0, 0, 0, 5, -10],
   [-10, 10, 10, 10, 10, 10, 10, -10],
   [-10, 0, 10, 10, 10, 10, 0, -10],
   [-10, 5, 5, 10, 10, 5, 5, -10],
   [-10, 0, 5, 10, 10, 5, 0, -10],
   [-10, 0, 0, 0, 0, 0, 0, -10],
   [-20, -10, -10, -10, -10, -10, -10, -20]]

def ROOK_TABLE : List (List Int) :=
  [[0, 0, 0, 0, 0, 0, 0, 0],
   [5, 10, 10, 10, 10, 10, 10, 5],
   [-5, 0, 0, 0, 0, 0, 0, -5],
   [-5, 0, 0, 0, 0, 0, 0, -5],
   [-5, 0, 0, 0, 0, 0, 0, -5],
   [-5, 0, 0, 0, 0, 0, 0, -5],
   [-5, 0, 0, 5, 5, 0, 0, -5],
   [0, 0, 0, 0, 0, 0, 0, 0]]

def QUEEN_TABLE : List (List Int) :=
  [[-20, -10, -10, -5, -5, -10, -10, -20],
   [-10, 0, 5, 0, 0, 0, 0, -10],
   [-10, 5, 5, 5, 5, 5, 0, -10],
   [0, 0, 5, 5, 5, 5, 0, -5],
   [-5, 0, 5, 5, 5, 5, 0, -5],
   [-10, 0, 5, 5, 5, 5, 0, -10],
   [-10, 0, 0, 0, 0, 0, 0, -10],
   [-20, -10, -10, -5, -5, -10, -10, -20]]

def KING_TABLE : List (List Int) :=
  [[-30, -40, -40, -50, -50, -40, -40, -30],
   [-30, -40, -40, -50, -50, -40, -40, -30],
   [-30, -40, -40, -50, -50, -40, -40, -30],
   [-30, -40, -40, -50, -50, -40, -40, -30],
   [-20, -30, -30, -40, -40, -30, -30, -20],
   [-10, -20, -20, -20, -20, -20, -20, -10],
   [20, 20, 0, 0, 0, 0, 20, 20],
   [20, 30, 10, 0, 0, 10, 30, 20]]

/-- `TABLE[r][c]` on the in-range indices the source uses. -/
def table_at (t : List (List Int)) (r c : Int) : Int :=
  (t.getD r.toNat []).getD c.toNat 0

/-- `material_term(board)`: the accumulation loop as a sum over the
row-major square list. -/
def material_term (board : Board) : Int :=
  (squares64.map fun p =>
    let ch := board p
    if ch = '.' then 0
    else
      let value := piece_value ch.toUpper
      if ch.isUpper then value else -value).sum

/-- `piece_square_term(board)`. -/
def piece_square_term (board : Board) : Int :=
  (squares64.map fun p =>
    let ch := board p
    let r := p.1; let c := p.2
    if ch = '.' then 0
    else
      let ptype := ch.toUpper
      if ptype = 'P' then
        if ch.isUpper then table_at PAWN_TABLE r c else -table_at PAWN_TABLE (7 - r) c
      else if ptype = 'N' then
        if ch.isUpper then table_at KNIGHT_TABLE r c else -table_at KNIGHT_TABLE (7 - r) c
      else if ptype = 'B' then
        if ch.isUpper then table_at BISHOP_TABLE r c else -table_at BISHOP_TABLE (7 - r) c
      else if ptype = 'R' then
        if ch.isUpper then table_at ROOK_TABLE r c else -table_at ROOK_TABLE (7 - r) c
      else if ptype = 'Q' then
        if ch.isUpper then table_at QUEEN_TABLE r c else -table_at QUEEN_TABLE (7 - r) c
      else if ptype = 'K' then
        if ch.isUpper then table_at KING_TABLE r c else -table_at KING_TABLE (7 - r) c
      else 0).sum

/-- `doubled_pawn_penalty(board)`: per-file pawn counts. -/
def doubled_pawn_penalty (board : Board) : Int :=
  ((List.range 8).map fun file =>
    let white_count := ((List.range 8).filter fun rank =>
      board (Int.ofNat rank, Int.ofNat file) = 'P').length
    let black_count := ((List.range 8).filter fun rank =>
      board (Int.ofNat rank, Int.ofNat file) = 'p').length
    (if white_count > 1 then -(10 * ((white_count : Int) - 1)) else 0) +
      (if black_count > 1 then 10 * ((black_count : Int) - 1) else 0)).sum

/-- `isolated_pawn_penalty(board)`: the neighbour-file scan with breaks
becomes an `any`. -/
def isolated_pawn_penalty (board : Board) : Int :=
  (squares64.map fun p =>
    let ch := board p
    if ¬(ch = 'P' ∨ ch = 'p') then 0
    else
      let is_white := ch = 'P'
      let has_neighbor := ([-1, 1] : List Int).any fun dc =>
        let nc := p.2 + dc
        decide (0 ≤ nc ∧ nc < 8) &&
          (List.range 8).any fun rr =>
            board (Int.ofNat rr, nc) = (if is_white then 'P' else 'p')
      if has_neighbor then 0
      else if is_white then -15 else 15).sum

/-- `is_white_passed(board, r, c)`: no black pawn in the three-file
corridor on rows `0..r-1`. -/
def is_white_passed (board : Board) (r c : Int) : Bool :=
  (List.range 8).all fun rr =>
    decide (r ≤ Int.ofNat rr) ||
      (([-1, 0, 1] : List Int).all fun dc =>
        let cc := c + dc
        !(decide (0 ≤ cc ∧ cc < 8) && decide (board (Int.ofNat rr, cc) = 'p')))

/-- `is_black_passed(board, r, c)`: no white pawn in the corridor on rows
`r+1..7`. -/
def is_black_passed (board : Board) (r c : Int) : Bool :=
  (List.range 8).all fun rr =>
    decide (Int.ofNat rr ≤ r) ||
      (([-1, 0, 1] : List Int).all fun dc =>
        let cc := c + dc
        !(decide (0 ≤ cc ∧ cc < 8) && decide (board (Int.ofNat rr, cc) = 'P')))

/-- `passed_pawn_bonus(board)`. -/
def passed_pawn_bonus (board : Board) : Int :=
  (squares64.map fun p =>
    let ch := board p
    if ch = 'P' ∧ is_white_passed board p.1 p.2 then (7 - p.1) * 10
    else if ch = 'p' ∧ is_black_passed board p.1 p.2 then -(p.1 * 10)
    else 0).sum

/-- `pawn_structure_term(board)`. -/
def pawn_structure_term (board : Board) : Int :=
  doubled_pawn_penalty board + isolated_pawn_penalty board + passed_pawn_bonus board

/-- `queens_on_board(board)`. -/
def queens_on_board (board : Board) : Bool :=
  squares64.any fun p => board p = 'Q' ∨ board p = 'q'

/-- `find_kings(board)`: the scan keeps overwriting, so each result is the
*last* matching square in row-major order. -/
def find_kings (board : Board) : Option Pos × Option Pos :=
  ((squares64.filter fun p => board p = 'K').getLast?,
   (squares64.filter fun p => board p = 'k').getLast?)

/-- `king_safety_term(board)`. -/
def king_safety_term (board : Board) : Int :=
  if queens_on_board board then
    let kings := find_kings board
    (if kings.1 = some (7, 4) then -25 else 0) +
      (if kings.2 = some (0, 4) then 25 else 0)
  else 0

/-- `evaluate(board, side_to_move)`: material + piece-square + pawn
structure + king safety; `side_to_move` is accepted but unused. -/
def evaluate (board : Board) (_side_to_move : String) : Int :=
  material_term board + piece_square_term board + pawn_structure_term board +
    king_safety_term board

/-! ### engine/search.py : data model -/

/-- `INF = 10**9`. -/
def INF : Int := 10 ^ 9

/-- `SearchState` dataclass: castling flags plus the en-passant tracker
(`last_pawn_move` is the square of the pawn that just advanced two). -/
structure SearchState where
  white_on_bottom : Bool := true
  white_king_moved : Bool := false
  white_rook_left_moved : Bool := false
  white_rook_right_moved : Bool := false
  black_king_moved : Bool := false
  black_rook_left_moved : Bool := false
  black_rook_right_moved : Bool := false
  last_pawn_move : Option Pos := none
deriving DecidableEq, Repr

/-- `Move` dataclass.  The Python field `end` is a Lean keyword and is
rendered `endp`. -/
structure Move where
  start : Pos
  endp : Pos
  promotion : Option Char := none
  is_castle : Bool := false
  is_en_passant : Bool := false
deriving DecidableEq, Repr

/-- `Undo` dataclass.  `captured` is always a concrete character in
`make_move` (never Python `None`), so it is embedded as `Char`; the
`prev_flags` 6-tuple keeps the source order. -/
structure Undo where
  captured : Char
  ep_captured_pos : Option Pos
  prev_last_pawn_move : Option Pos
  prev_flags : Bool × Bool × Bool × Bool × Bool × Bool
  moved_piece : Char
  start : Pos
  endp : Pos
  was_en_passant : Bool
deriving DecidableEq, Repr

/-- `side_str(colour)`. -/
def side_str (colour : Int) : String :=
  if colour = 1 then "white" else "black"

/-! ### engine/search.py : generate_legal_moves -/

/-- The body of the inner destination loop of `generate_legal_moves`:
legality filter, the pawn-diagonal-into-empty en-passant re-check,
promotion expansion, and the en-passant hint flag. -/
def move_candidates (board : Board) (st : SearchState) (side_to_move : String)
    (ch : Char) (p e : Pos) : List Move :=
  let r := p.1; let c := p.2; let er := e.1; let ec := e.2
  if leaves_king_in_check p e board side_to_move st.white_on_bottom st.last_pawn_move then []
  else if (ch = 'P' ∨ ch = 'p') ∧ board e = '.' ∧ (ec - c).natAbs = 1 ∧ (er - r).natAbs = 1 ∧
      en_passant p e ch board st.last_pawn_move st.white_on_bottom = false then []
  else if is_promotion_move p e board st.white_on_bottom then
    ['q', 'r', 'b', 'n'].map fun pr =>
      { start := p, endp := e, promotion := some (get_promoted_piece pr ch.isUpper) }
  else
    [{ start := p, endp := e,
       is_en_passant :=
         decide ((ch = 'P' ∨ ch = 'p') ∧ board e = '.' ∧
                 (ec - c).natAbs = 1 ∧ (er - r).natAbs = 1) }]

/-- Phase 1 of `generate_legal_moves` at one square: normal piece moves. -/
def normal_moves_at (board : Board) (side_to_move : String) (st : SearchState)
    (p : Pos) : List Move :=
  let ch := board p
  if ch = '.' then []
  else if (side_to_move = "white" ∧ ch.isUpper) ∨ (side_to_move = "black" ∧ ch.isLower) then
    (calculate_valid_moves p board st.white_on_bottom st.last_pawn_move).flatMap fun e =>
      move_candidates board st side_to_move ch p e
  else []

/-- Phase 2 of `generate_legal_moves` at one square: castling moves for the
side's king, each re-filtered through `leaves_king_in_check`. -/
def castle_moves_at (board : Board) (side_to_move : String) (st : SearchState)
    (p : Pos) : List Move :=
  let ch := board p
  if ch = '.' then []
  else if side_to_move = "white" ∧ ch = 'K' then
    ((calculate_castling_moves p.1 p.2 ch board st.white_on_bottom
        st.white_king_moved st.white_rook_left_moved st.white_rook_right_moved
        st.black_king_moved st.black_rook_left_moved st.black_rook_right_moved).filter fun e =>
      !leaves_king_in_check p e board "white" st.white_on_bottom st.last_pawn_move).map
      fun e => { start := p, endp := e, is_castle := true }
  else if side_to_move = "black" ∧ ch = 'k' then
    ((calculate_castling_moves p.1 p.2 ch board st.white_on_bottom
        st.white_king_moved st.white_rook_left_moved st.white_rook_right_moved
        st.black_king_moved st.black_rook_left_moved st.black_rook_right_moved).filter fun e =>
      !leaves_king_in_check p e board "black" st.white_on_bottom st.last_pawn_move).map
      fun e => { start := p, endp := e, is_castle := true }
  else []

/-- `generate_legal_moves(board, side_to_move, st)`. -/
def generate_legal_moves (board : Board) (side_to_move : String) (st : SearchState) :
    List Move :=
  (squares64.flatMap fun p => normal_moves_at board side_to_move st p) ++
    (squares64.flatMap fun p => castle_moves_at board side_to_move st p)

/-! ### engine/search.py : make_move / undo_move -/

/-- `make_move(board, mv, st) -> Undo`, embedded as a pure function
returning the undo record together with the updated board and state. -/
def make_move (board : Board) (mv : Move) (st : SearchState) :
    Undo × Board × SearchState :=
  let sr := mv.start.1; let sc := mv.start.2
  let er := mv.endp.1; let ec := mv.endp.2
  let piece := board (sr, sc)
  let captured0 := board (er, ec)
  let prev_last_pawn_move := st.last_pawn_move
  let prev_flags := (st.white_king_moved, st.white_rook_left_moved, st.white_rook_right_moved,
    st.black_king_moved, st.black_rook_left_moved, st.black_rook_right_moved)
  let b1 := bset board (sr, sc) '.'
  let direction := get_pawn_direction piece st.white_on_bottom
  let cap_r := er - direction
  let ep_ok : Prop :=
    mv.is_en_passant = true ∧ (piece = 'P' ∨ piece = 'p') ∧ captured0 = '.' ∧
      st.last_pawn_move = some (cap_r, ec) ∧
      b1 (cap_r, ec) = (if piece = 'P' then 'p' else 'P')
  let ep_captured_pos : Option Pos := if ep_ok then some (cap_r, ec) else none
  let captured := if ep_ok then b1 (cap_r, ec) else captured0
  let was_en_passant := decide ep_ok
  let b2 := if ep_ok then bset b1 (cap_r, ec) '.' else b1
  let place_piece := match mv.promotion with | some pr => pr | none => piece
  let b3 := bset b2 (er, ec) place_piece
  -- The Python flag/castling if-chain touches the board only in the two
  -- king-with-castle branches and the state only through one flag; the
  -- board writes and flag writes are split into two if-chains here.
  let b4 :=
    if piece = 'K' ∧ mv.is_castle = true ∧ ec = sc + 2 then
      bset (bset b3 (7, 7) '.') (7, 5) 'R'
    else if piece = 'K' ∧ mv.is_castle = true ∧ ec = sc - 2 then
      bset (bset b3 (7, 0) '.') (7, 3) 'R'
    else if piece = 'k' ∧ mv.is_castle = true ∧ ec = sc + 2 then
      bset (bset b3 (0, 7) '.') (0, 5) 'r'
    else if piece = 'k' ∧ mv.is_castle = true ∧ ec = sc - 2 then
      bset (bset b3 (0, 0) '.') (0, 3) 'r'
    else b3
  let st1 :=
    if piece = 'K' then { st with white_king_moved := true }
    else if piece = 'k' then { st with black_king_moved := true }
    else if piece = 'R' ∧ (sr, sc) = ((7 : Int), (0 : Int)) then
      { st with white_rook_left_moved := true }
    else if piece = 'R' ∧ (sr, sc) = ((7 : Int), (7 : Int)) then
      { st with white_rook_right_moved := true }
    else if piece = 'r' ∧ (sr, sc) = ((0 : Int), (0 : Int)) then
      { st with black_rook_left_moved := true }
    else if piece = 'r' ∧ (sr, sc) = ((0 : Int), (7 : Int)) then
      { st with black_rook_right_moved := true }
    else st
  let st2 :=
    if (piece = 'P' ∨ piece = 'p') ∧ mv.promotion = none then
      if (er - sr).natAbs = 2 ∧ sc = ec then { st1 with last_pawn_move := some (er, ec) }
      else { st1 with last_pawn_move := none }
    else { st1 with last_pawn_move := none }
  (⟨captured, ep_captured_pos, prev_last_pawn_move, prev_flags, piece, mv.start, mv.endp,
      was_en_passant⟩,
    b4, st2)

/-- `undo_move(board, undo, st)`: exact inverse, returning the restored
board and state.  (`undo.captured` is never Python `None`, so the
`captured if captured is not None else '.'` guard collapses.) -/
def undo_move (board : Board) (u : Undo) (st : SearchState) : Board × SearchState :=
  let sr := u.start.1; let sc := u.start.2
  let er := u.endp.1; let ec := u.endp.2
  let moved := board (er, ec)
  let b1 :=
    if moved = 'K' ∧ (ec - sc).natAbs = 2 ∧ ec = sc + 2 then
      bset (bset board (7, 5) '.') (7, 7) 'R'
    else if moved = 'K' ∧ (ec - sc).natAbs = 2 ∧ ec = sc - 2 then
      bset (bset board (7, 3) '.') (7, 0) 'R'
    else if moved = 'k' ∧ (ec - sc).natAbs = 2 ∧ ec = sc + 2 then
      bset (bset board (0, 5) '.') (0, 7) 'r'
    else if moved = 'k' ∧ (ec - sc).natAbs = 2 ∧ ec = sc - 2 then
      bset (bset board (0, 3) '.') (0, 0) 'r'
    else board
  let b2 := if u.was_en_passant then bset b1 (er, ec) '.' else bset b1 (er, ec) u.captured
  let b3 := bset b2 (sr, sc) u.moved_piece
  let b4 :=
    match u.ep_captured_pos with
    | some cp => bset b3 cp u.captured
    | none => b3
  let st1 : SearchState :=
    { white_on_bottom := st.white_on_bottom
      white_king_moved := u.prev_flags.1
      white_rook_left_moved := u.prev_flags.2.1
      white_rook_right_moved := u.prev_flags.2.2.1
      black_king_moved := u.prev_flags.2.2.2.1
      black_rook_left_moved := u.prev_flags.2.2.2.2.1
      black_rook_right_moved := u.prev_flags.2.2.2.2.2
      last_pawn_move := u.prev_last_pawn_move }
  (b4, st1)

/-! ### engine/search.py : move ordering and search -/

/-- `_move_order_key(board, mv)`. -/
def move_order_key (board : Board) (mv : Move) : Int :=
  (if board mv.endp ≠ '.' then 1000 else 0) +
    (if mv.is_en_passant = true then 1000 else 0) +
    (if mv.promotion.isSome then 900 else 0)

/-- Stable descending insertion used to embed Python's stable
`moves.sort(key=..., reverse=True)`: an element is inserted after every
element of not-smaller key. -/
def insert_desc (key : Move → Int) (mv : Move) : List Move → List Move
  | [] => [mv]
  | x :: xs => if key mv ≤ key x then x :: insert_desc key mv xs else mv :: x :: xs

/-- Stable sort by `move_order_key`, highest key first. -/
def sort_moves (board : Board) (moves : List Move) : List Move :=
  moves.foldr (fun mv acc => insert_desc (move_order_key board) mv acc) []

/-- The `for mv in moves` alpha-beta loop of `nega_max`: running `value`
and `alpha`, with the `alpha >= beta` beta cutoff; the recursive search of
a child is abstracted as `child b' st' alpha`. -/
def nega_loop (b : Board) (st : SearchState) (child : Board → SearchState → Int → Int)
    (beta : Int) : List Move → Int → Int → Int
  | [], value, _alpha => value
  | mv :: rest, value, alpha =>
    let m := make_move b mv st
    let score := child m.2.1 m.2.2 alpha
    let value' := if score > value then score else value
    let alpha' := if value' > alpha then value' else alpha
    if alpha' ≥ beta then value' else nega_loop b st child beta rest value' alpha'

/-- `nega_max(board, depth, alpha, beta, colour, st)`: terminal check
first (mate `-INF + 1` / stalemate `0`), then the depth-0 static
evaluation `colour * evaluate(board, 'w')`, then the ordered alpha-beta
loop.  The Python `undo_move` after each child is the identity on the pure
reading (make/undo is exactly reversible for generated moves). -/
def nega_max (depth : Nat) (board : Board)
    (alpha beta colour : Int) (st : SearchState) : Int :=
  let side := side_str colour
  let moves := generate_legal_moves board side st
  if moves = [] then
    if is_in_check side board st.white_on_bottom then -INF + 1 else 0
  else
    match depth with
    | 0 => colour * evaluate board "w"
    | d + 1 =>
      nega_loop board st
        (fun b' st' a => -nega_max d b' (-beta) (-a) (-colour) st') beta
        (sort_moves board moves) (-INF) alpha

/-- The one-ply mate-shortcut scan at the root of `find_best_move`. -/
def find_mate_in_one (b : Board) (st : SearchState) (opponent : String) :
    List Move → Option Move
  | [] => none
  | mv :: rest =>
    let m := make_move b mv st
    if generate_legal_moves m.2.1 opponent m.2.2 = [] ∧
        is_in_check opponent m.2.1 m.2.2.white_on_bottom then some mv
    else find_mate_in_one b st opponent rest

/-- The root scoring loop of `find_best_move`: full-window `nega_max` at
`depth - 1` per move, keeping the first-seen maximum. -/
def root_loop (b : Board) (st : SearchState) (depth : Nat)
    (colour : Int) : List Move → Int → Option Move → Option Move
  | [], _best_score, best_move => best_move
  | mv :: rest, best_score, best_move =>
    let m := make_move b mv st
    let score := -nega_max (depth - 1) m.2.1 (-INF) INF (-colour) m.2.2
    if score > best_score then root_loop b st depth colour rest score (some mv)
    else root_loop b st depth colour rest best_score best_move

/-- `find_best_move(board, side_to_move, depth, st)`. -/
def find_best_move (board : Board) (side_to_move : String)
    (depth : Nat) (st : SearchState) : Option Move :=
  let colour : Int := if side_to_move = "white" then 1 else -1
  let moves := generate_legal_moves board side_to_move st
  if moves = [] then none
  else
    let opponent := if side_to_move = "white" then "black" else "white"
    match find_mate_in_one board st opponent moves with
    | some mv => some mv
    | none =>
      root_loop board st depth colour (sort_moves board moves) (-INF) none

/-! ### Concrete boards -/

/-- Build a `Board` from eight rows of eight characters (row 0 first, the
internal orientation used throughout the sources). -/
def boardOfRows (rows : List (List Char)) : Board :=
  fun p =>
    if 0 ≤ p.1 ∧ p.1 < 8 ∧ 0 ≤ p.2 ∧ p.2 < 8 then
      (rows.getD p.1.toNat []).getD p.2.toNat '.'
    else '.'

/-- The standard initial position (row 0 = Black's home rank). -/
def init_board : Board :=
  boardOfRows
    [['r', 'n', 'b', 'q', 'k', 'b', 'n', 'r'],
     ['p', 'p', 'p', 'p', 'p', 'p', 'p', 'p'],
     ['.', '.', '.', '.', '.', '.', '.', '.'],
     ['.', '.', '.', '.', '.', '.', '.', '.'],
     ['.', '.', '.', '.', '.', '.', '.', '.'],
     ['.', '.', '.', '.', '.', '.', '.', '.'],
     ['P', 'P', 'P', 'P', 'P', 'P', 'P', 'P'],
     ['R', 'N', 'B', 'Q', 'K', 'B', 'N', 'R']]

/-- A fresh search state: all castling flags false, no en-passant target. -/
def init_state : SearchState := {}

/-- A board with no pieces at all (in particular, no king of either color). -/
def empty_board : Board := fun _ => '.'

/-- White king cornered on h1 by a protected black queen on g2: White has
no legal move and is in check (checkmate, White to move). -/
def mate_board : Board :=
  boardOfRows
    [['.', '.', '.', '.', '.', '.', '.', '.'],
     ['.', '.', '.', '.', '.', '.', '.', '.'],
     ['.', '.', '.', '.', '.', '.', '.', '.'],
     ['.', '.', '.', '.', '.', '.', '.', '.'],
     ['.', '.', '.', '.', '.', '.', '.', '.'],
     ['.', '.', '.', '.', '.', 'k', '.', '.'],
     ['.', '.', '.', '.', '.', '.', 'q', '.'],
     ['.', '.', '.', '.', '.', '.', '.', 'K']]

/-- A white knight on (6,4) plus both kings; used to probe `make_move`
with an invalid promotion request attached to a knight move. -/
def knight_board : Board :=
  boardOfRows
    [['.', '.', '.', '.', 'k', '.', '.', '.'],
     ['.', '.', '.', '.', '.', '.', '.', '.'],
     ['.', '.', '.', '.', '.', '.', '.', '.'],
     ['.', '.', '.', '.', '.', '.', '.', '.'],
     ['.', '.', '.', '.', '.', '.', '.', '.'],
     ['.', '.', '.', '.', '.', '.', '.', '.'],
     ['.', '.', '.', '.', 'N', '.', '.', '.'],
     ['.', '.', '.', '.', 'K', '.', '.', '.']]

/-- A knight move carrying a bogus promotion request: the mover is not a
pawn and the destination is not the far rank. -/
def bogus_promotion_move : Move :=
  { start := (6, 4), endp := (4, 3), promotion := some 'Q' }

/-! ## Claim theorems -/

/-- **C9.** On the initial standard position with a fresh state,
`generate_legal_moves` for White returns exactly 20 moves. -/
theorem initial_position_twenty_moves :
    (generate_legal_moves init_board "white" init_state).length = 20 := by
  decide

/-- **C8.** On any board holding no king of the queried color,
`is_in_check` returns `false` (conservative degenerate-case behaviour:
the king scan finds nothing and the function short-circuits). -/
theorem is_in_check_no_king (player_color : String) (b : Board) (wob : Bool)
    (h : ∀ p ∈ squares64,
      ¬(player_color = "white" ∧ b p = 'K') ∧ ¬(player_color = "black" ∧ b p = 'k')) :
    is_in_check player_color b wob = false := by
  have hfilter : (squares64.filter fun p =>
      decide ((player_color = "white" ∧ b p = 'K') ∨
              (player_color = "black" ∧ b p = 'k'))) = [] := by
    rw [List.filter_eq_nil_iff]
    intro a ha
    simp only [decide_eq_true_eq]
    rintro (⟨h1, h2⟩ | ⟨h1, h2⟩)
    · exact (h a ha).1 ⟨h1, h2⟩
    · exact (h a ha).2 ⟨h1, h2⟩
  have hk : king_position player_color b = none := by
    unfold king_position
    rw [hfilter]
    rfl
  unfold is_in_check
  rw [hk]

/-- Witness for C8: the all-empty board has no white king, and
`is_in_check` reports `false` on it. -/
theorem is_in_check_no_king_witness : is_in_check "white" empty_board true = false :=
  is_in_check_no_king "white" empty_board true (by decide)

/-- **C4, counterexample.** The bogus promotion request (promotion `'Q'`
attached to a knight move, which `is_promotion_move` rejects) is *not*
ignored by `make_move`: the destination square receives the promotion
piece `'Q'`, not the moving knight `'N'`. -/
theorem make_move_invalid_promotion_counterexample :
    is_promotion_move (6, 4) (4, 3) knight_board true = false ∧
      (make_move knight_board bogus_promotion_move init_state).2.1 (4, 3) = 'Q' ∧
      ¬(make_move knight_board bogus_promotion_move init_state).2.1 (4, 3) = 'N' := by
  refine ⟨by decide, by decide, by decide⟩

/-- **C4, amended.** `make_move` applies the `promotion` field
unconditionally whenever it is set (`place_piece = mv.promotion or piece`):
for any move whose moving piece is not a king (so no castling rook-write
can touch the destination), the destination square afterwards holds the
requested promotion piece, valid or not. -/
theorem make_move_applies_promotion_unconditionally (b : Board) (st : SearchState)
    (mv : Move) (pr : Char) (hpr : mv.promotion = some pr)
    (hK : b mv.start ≠ 'K') (hk : b mv.start ≠ 'k') :
    (make_move b mv st).2.1 mv.endp = pr := by
  obtain ⟨⟨sr, sc⟩, ⟨er, ec⟩, promo, castle, isep⟩ := mv
  simp only [Move.promotion] at hpr
  subst hpr
  simp only [Move.start] at hK hk
  simp only [make_move, Move.start, Move.endp]
  split_ifs <;> simp_all [bset]

/-- Witness for C4's amended theorem at the concrete knight board. -/
theorem make_move_applies_promotion_unconditionally_witness :
    (make_move knight_board bogus_promotion_move init_state).2.1
      bogus_promotion_move.endp = 'Q' :=
  make_move_applies_promotion_unconditionally knight_board init_state
    bogus_promotion_move 'Q' (by decide) (by decide) (by decide)

/-- **C3, counterexample.** On a checkmated position the value `nega_max`
returns is the fixed sentinel `-INF + 1` at remaining depth 5 and at
remaining depth 0 alike: no depth adjustment distinguishes shallower from
deeper mates. -/
theorem mate_score_depth_independent_counterexample :
    nega_max 5 mate_board (-INF) INF 1 init_state = -INF + 1 ∧
      nega_max 0 mate_board (-INF) INF 1 init_state = -INF + 1 := by
  refine ⟨by decide, by decide⟩

/-- **C3, amended.** Whenever the side to move has no legal moves and is
in check, `nega_max` returns the constant mate sentinel `-INF + 1`,
independent of the remaining search depth. -/
theorem nega_max_mate_constant (depth : Nat) (b : Board) (st : SearchState)
    (alpha beta colour : Int)
    (hmoves : generate_legal_moves b (side_str colour) st = [])
    (hcheck : is_in_check (side_str colour) b st.white_on_bottom = true) :
    nega_max depth b alpha beta colour st = -INF + 1 := by
  cases depth <;> simp [nega_max, hmoves, hcheck]

/-- Witness for C3's amended theorem on the concrete mate position. -/
theorem nega_max_mate_constant_witness :
    nega_max 3 mate_board (-7) 7 1 init_state = -INF + 1 :=
  nega_max_mate_constant 3 mate_board init_state (-7) 7 1 (by decide) (by decide)

/-- **C5.** `nega_max` at `depth = 0` decides terminality before the depth
cutoff: with no legal moves it returns the mate sentinel or the stalemate
0, and it returns `colour * evaluate(board, 'w')` exactly in the remaining
(some-legal-move) case. -/
theorem nega_max_depth_zero_terminal_first (b : Board) (st : SearchState)
    (alpha beta colour : Int) :
    nega_max 0 b alpha beta colour st =
      if generate_legal_moves b (side_str colour) st = [] then
        if is_in_check (side_str colour) b st.white_on_bottom then -INF + 1 else 0
      else colour * evaluate b "w" := by
  rfl

/-! ## C2 / C6 : concrete failing inputs -/

/-- A second definition following the spec's words (§4.3): simulate a move
directly on the board *including en-passant pawn removal if applicable*
(the capture's applicability judged on the pre-move board).  This is the
comparison point for what `leaves_king_in_check` is specified to test. -/
def spec_simulate_move (board : Board) (start endp : Pos)
    (last_pawn_move : Option Pos) : Board :=
  let piece := board start
  let b1 := bset (bset board start '.') endp piece
  if en_passant start endp piece board last_pawn_move true then
    bset b1 (endp.1 - get_pawn_direction piece true, endp.2) '.'
  else b1

/-- A classic en-passant pin: the black pawn on (3,5) has just advanced
two squares; capturing it en passant with the white pawn on (3,4) opens
the black rook's line along row 3 to the white king on (3,7). -/
def ep_pin_board : Board :=
  boardOfRows
    [['k', '.', '.', '.', '.', '.', '.', '.'],
     ['.', '.', '.', '.', '.', '.', '.', '.'],
     ['.', '.', '.', '.', '.', '.', '.', '.'],
     ['r', '.', '.', '.', 'P', 'p', '.', 'K'],
     ['.', '.', '.', '.', '.', '.', '.', '.'],
     ['.', '.', '.', '.', '.', '.', '.', '.'],
     ['.', '.', '.', '.', '.', '.', '.', '.'],
     ['.', '.', '.', '.', '.', '.', '.', '.']]

/-- State immediately after Black's two-square pawn advance to (3,5). -/
def ep_state : SearchState := { last_pawn_move := some (3, 5) }

/-- The en-passant capture (3,4) → (2,5) on `ep_pin_board`. -/
def ep_pin_move : Move := { start := (3, 4), endp := (2, 5), is_en_passant := true }

/-- **C2, failing input.** `generate_legal_moves` returns the en-passant
capture on `ep_pin_board`, yet simulating that capture with the captured
pawn removed (as the spec's simulation prescribes) leaves White's own king
attacked by the rook on (3,0).  The code's `leaves_king_in_check` misses
this because it consults `en_passant` only after the destination square
has been filled, so its en-passant-removal branch never fires. -/
theorem ep_capture_leaves_king_attacked :
    ep_pin_move ∈ generate_legal_moves ep_pin_board "white" ep_state ∧
      is_in_check "white"
        (spec_simulate_move ep_pin_board (3, 4) (2, 5) (some (3, 5))) true = true := by
  refine ⟨by decide, by decide⟩

/-- Kingside castling with the transit square f1 = (7,5) attacked: the
black rook on (0,5) controls the open f-file, while e1 and g1 are safe. -/
def castle_bug_board : Board :=
  boardOfRows
    [['k', '.', '.', '.', '.', 'r', '.', '.'],
     ['.', '.', '.', '.', '.', '.', '.', '.'],
     ['.', '.', '.', '.', '.', '.', '.', '.'],
     ['.', '.', '.', '.', '.', '.', '.', '.'],
     ['.', '.', '.', '.', '.', '.', '.', '.'],
     ['.', '.', '.', '.', '.', '.', '.', '.'],
     ['.', '.', '.', '.', '.', '.', '.', '.'],
     ['.', '.', '.', '.', 'K', '.', '.', 'R']]

/-- The white kingside castle move on `castle_bug_board`. -/
def castle_bug_move : Move := { start := (7, 4), endp := (7, 6), is_castle := true }

/-- **C6, failing input.** White's kingside castle is produced by
`generate_legal_moves` although the square the king transits, (7,5), is
attacked by the black rook on (0,5) (it lies in that rook's movement
destinations).  `squares_under_attack` places a temporary king on (7,5),
but `is_in_check` scans row-major and finds the real king on (7,4) first,
so the transit-square test degenerates to re-testing the king's own
square. -/
theorem kingside_castle_through_attacked_square :
    castle_bug_move ∈ generate_legal_moves castle_bug_board "white" init_state ∧
      (7, 5) ∈ calculate_valid_moves (0, 5) castle_bug_board true none := by
  refine ⟨by decide, by decide⟩

/-- `undo_move` restores the `SearchState` exactly for *any* move: all six
flags and `last_pawn_move` come verbatim from the undo record, which
`make_move` filled from the pre-move state. -/
theorem make_undo_state (b : Board) (st : SearchState) (mv : Move) :
    (undo_move (make_move b mv st).2.1 (make_move b mv st).1 (make_move b mv st).2.2).2 = st := by
  simp only [make_move, undo_move]
  split_ifs <;> rfl

/-- Board restoration for every non-castle move: the only constraints are
that a set promotion piece is not a king character, and that a king's move
does not span two files (so the undo castle branch cannot misfire).  Both
hold for every move the generator emits. -/
theorem make_undo_board_noncastle (b : Board) (st : SearchState)
    (sr sc er ec : Int) (promo : Option Char) (isep : Bool)
    (hpr : ∀ pr, promo = some pr → pr ≠ 'K' ∧ pr ≠ 'k')
    (hking : promo = none → (b (sr, sc) = 'K' ∨ b (sr, sc) = 'k') → (ec - sc).natAbs ≠ 2) :
    (undo_move
      (make_move b ⟨(sr, sc), (er, ec), promo, false, isep⟩ st).2.1
      (make_move b ⟨(sr, sc), (er, ec), promo, false, isep⟩ st).1
      (make_move b ⟨(sr, sc), (er, ec), promo, false, isep⟩ st).2.2).1 = b := by
  simp only [make_move, undo_move]
  dsimp only
  simp only [decide_eq_true_eq, Bool.false_eq_true, false_and, and_false, if_false, bset_same]
  set d := get_pawn_direction (b (sr, sc)) st.white_on_bottom with hd
  have hdne : d ≠ 0 := by rw [hd]; unfold get_pawn_direction; split_ifs <;> omega
  by_cases hep : isep = true ∧ (b (sr, sc) = 'P' ∨ b (sr, sc) = 'p') ∧ b (er, ec) = '.' ∧
      st.last_pawn_move = some (er - d, ec) ∧
      bset b (sr, sc) '.' (er - d, ec) = (if b (sr, sc) = 'P' then 'p' else 'P')
  · -- en-passant branch taken in make_move
    have hpawn := hep.2.1
    have hend := hep.2.2.1
    have hcap := hep.2.2.2.2
    have hcapstart : ((er - d, ec) : Pos) ≠ (sr, sc) := by
      intro h
      rw [h] at hcap
      simp only [bset_same] at hcap
      split_ifs at hcap <;> exact absurd hcap (by decide)
    have hcapend : ((er - d, ec) : Pos) ≠ (er, ec) := by
      intro h
      rw [Prod.mk.injEq] at h
      omega
    have hstartend : ((sr, sc) : Pos) ≠ (er, ec) := by
      intro h
      rw [← h] at hend
      rcases hpawn with hP | hP <;> rw [hP] at hend <;> exact absurd hend (by decide)
    simp only [if_pos hep]
    cases promo with
    | some pr =>
      obtain ⟨hprK, hprk⟩ := hpr pr rfl
      dsimp only
      have hn1 : ¬(pr = 'K' ∧ (ec - sc).natAbs = 2 ∧ ec = sc + 2) := fun h => hprK h.1
      have hn2 : ¬(pr = 'K' ∧ (ec - sc).natAbs = 2 ∧ ec = sc - 2) := fun h => hprK h.1
      have hn3 : ¬(pr = 'k' ∧ (ec - sc).natAbs = 2 ∧ ec = sc + 2) := fun h => hprk h.1
      have hn4 : ¬(pr = 'k' ∧ (ec - sc).natAbs = 2 ∧ ec = sc - 2) := fun h => hprk h.1
      simp only [if_neg hn1, if_neg hn2, if_neg hn3, if_neg hn4]
      rw [bset_ne b (sr, sc) '.' hcapstart]
      funext q
      simp only [bset]
      split_ifs <;> simp_all
    | none =>
      dsimp only
      have hn1 : ¬(b (sr, sc) = 'K' ∧ (ec - sc).natAbs = 2 ∧ ec = sc + 2) := by
        rintro ⟨h1, -⟩
        rcases hpawn with hP | hP <;> rw [hP] at h1 <;> exact absurd h1 (by decide)
      have hn2 : ¬(b (sr, sc) = 'K' ∧ (ec - sc).natAbs = 2 ∧ ec = sc - 2) := by
        rintro ⟨h1, -⟩
        rcases hpawn with hP | hP <;> rw [hP] at h1 <;> exact absurd h1 (by decide)
      have hn3 : ¬(b (sr, sc) = 'k' ∧ (ec - sc).natAbs = 2 ∧ ec = sc + 2) := by
        rintro ⟨h1, -⟩
        rcases hpawn with hP | hP <;> rw [hP] at h1 <;> exact absurd h1 (by decide)
      have hn4 : ¬(b (sr, sc) = 'k' ∧ (ec - sc).natAbs = 2 ∧ ec = sc - 2) := by
        rintro ⟨h1, -⟩
        rcases hpawn with hP | hP <;> rw [hP] at h1 <;> exact absurd h1 (by decide)
      simp only [if_neg hn1, if_neg hn2, if_neg hn3, if_neg hn4]
      rw [bset_ne b (sr, sc) '.' hcapstart]
      funext q
      simp only [bset]
      split_ifs <;> simp_all
  · -- no en-passant capture
    simp only [if_neg hep]
    cases promo with
    | some pr =>
      obtain ⟨hprK, hprk⟩ := hpr pr rfl
      dsimp only
      have hn1 : ¬(pr = 'K' ∧ (ec - sc).natAbs = 2 ∧ ec = sc + 2) := fun h => hprK h.1
      have hn2 : ¬(pr = 'K' ∧ (ec - sc).natAbs = 2 ∧ ec = sc - 2) := fun h => hprK h.1
      have hn3 : ¬(pr = 'k' ∧ (ec - sc).natAbs = 2 ∧ ec = sc + 2) := fun h => hprk h.1
      have hn4 : ¬(pr = 'k' ∧ (ec - sc).natAbs = 2 ∧ ec = sc - 2) := fun h => hprk h.1
      simp only [if_neg hn1, if_neg hn2, if_neg hn3, if_neg hn4]
      funext q
      simp only [bset]
      split_ifs <;> simp_all
    | none =>
      dsimp only
      have hn1 : ¬(b (sr, sc) = 'K' ∧ (ec - sc).natAbs = 2 ∧ ec = sc + 2) := by
        rintro ⟨h1, h2, -⟩
        exact hking rfl (Or.inl h1) h2
      have hn2 : ¬(b (sr, sc) = 'K' ∧ (ec - sc).natAbs = 2 ∧ ec = sc - 2) := by
        rintro ⟨h1, h2, -⟩
        exact hking rfl (Or.inl h1) h2
      have hn3 : ¬(b (sr, sc) = 'k' ∧ (ec - sc).natAbs = 2 ∧ ec = sc + 2) := by
        rintro ⟨h1, h2, -⟩
        exact hking rfl (Or.inr h1) h2
      have hn4 : ¬(b (sr, sc) = 'k' ∧ (ec - sc).natAbs = 2 ∧ ec = sc - 2) := by
        rintro ⟨h1, h2, -⟩
        exact hking rfl (Or.inr h1) h2
      simp only [if_neg hn1, if_neg hn2, if_neg hn3, if_neg hn4]
      funext q
      simp only [bset]
      split_ifs <;> simp_all

/-- Board restoration for White's kingside castle, given the squares the
castling generator guarantees: king on e1, f1 empty, rook on h1. -/
theorem make_undo_board_castle_wk (b : Board) (st : SearchState)
    (hK : b ((7 : Int), (4 : Int)) = 'K') (h5 : b ((7 : Int), (5 : Int)) = '.')
    (h7 : b ((7 : Int), (7 : Int)) = 'R') :
    (undo_move (make_move b ⟨(7, 4), (7, 6), none, true, false⟩ st).2.1
      (make_move b ⟨(7, 4), (7, 6), none, true, false⟩ st).1
      (make_move b ⟨(7, 4), (7, 6), none, true, false⟩ st).2.2).1 = b := by
  simp only [make_move, undo_move]
  dsimp only
  norm_num [hK, bset, Prod.mk.injEq]
  funext q
  obtain ⟨qr, qc⟩ := q
  by_cases h1 : qr = (7 : Int) ∧ qc = (4 : Int)
  · simp_all [bset, Prod.mk.injEq]
  by_cases h2 : qr = (7 : Int) ∧ qc = (5 : Int)
  · simp_all [bset, Prod.mk.injEq]
  by_cases h3 : qr = (7 : Int) ∧ qc = (6 : Int)
  · simp_all [bset, Prod.mk.injEq]
  by_cases h4 : qr = (7 : Int) ∧ qc = (7 : Int)
  · simp_all [bset, Prod.mk.injEq]
  · simp_all [bset, Prod.mk.injEq]
    split_ifs <;> simp_all


/-- Board restoration for White's queenside castle. -/
theorem make_undo_board_castle_wq (b : Board) (st : SearchState)
    (hK : b ((7 : Int), (4 : Int)) = 'K') (h3 : b ((7 : Int), (3 : Int)) = '.')
    (h0 : b ((7 : Int), (0 : Int)) = 'R') :
    (undo_move (make_move b ⟨(7, 4), (7, 2), none, true, false⟩ st).2.1
      (make_move b ⟨(7, 4), (7, 2), none, true, false⟩ st).1
      (make_move b ⟨(7, 4), (7, 2), none, true, false⟩ st).2.2).1 = b := by
  simp only [make_move, undo_move]
  dsimp only
  norm_num [hK, bset, Prod.mk.injEq]
  funext q
  obtain ⟨qr, qc⟩ := q
  by_cases h1 : qr = (7 : Int) ∧ qc = (4 : Int)
  · simp_all [bset, Prod.mk.injEq]
  by_cases h2 : qr = (7 : Int) ∧ qc = (3 : Int)
  · simp_all [bset, Prod.mk.injEq]
  by_cases hb3 : qr = (7 : Int) ∧ qc = (2 : Int)
  · simp_all [bset, Prod.mk.injEq]
  by_cases h4 : qr = (7 : Int) ∧ qc = (0 : Int)
  · simp_all [bset, Prod.mk.injEq]
  · simp_all [bset, Prod.mk.injEq]
    split_ifs <;> simp_all

/-- Board restoration for Black's kingside castle. -/
theorem make_undo_board_castle_bk (b : Board) (st : SearchState)
    (hK : b ((0 : Int), (4 : Int)) = 'k') (h5 : b ((0 : Int), (5 : Int)) = '.')
    (h7 : b ((0 : Int), (7 : Int)) = 'r') :
    (undo_move (make_move b ⟨(0, 4), (0, 6), none, true, false⟩ st).2.1
      (make_move b ⟨(0, 4), (0, 6), none, true, false⟩ st).1
      (make_move b ⟨(0, 4), (0, 6), none, true, false⟩ st).2.2).1 = b := by
  simp only [make_move, undo_move]
  dsimp only
  norm_num [hK, bset, Prod.mk.injEq]
  funext q
  obtain ⟨qr, qc⟩ := q
  by_cases h1 : qr = (0 : Int) ∧ qc = (4 : Int)
  · simp_all [bset, Prod.mk.injEq]
  by_cases h2 : qr = (0 : Int) ∧ qc = (5 : Int)
  · simp_all [bset, Prod.mk.injEq]
  by_cases hb3 : qr = (0 : Int) ∧ qc = (6 : Int)
  · simp_all [bset, Prod.mk.injEq]
  by_cases h4 : qr = (0 : Int) ∧ qc = (7 : Int)
  · simp_all [bset, Prod.mk.injEq]
  · simp_all [bset, Prod.mk.injEq]
    split_ifs <;> simp_all

/-- Board restoration for Black's queenside castle. -/
theorem make_undo_board_castle_bq (b : Board) (st : SearchState)
    (hK : b ((0 : Int), (4 : Int)) = 'k') (h3 : b ((0 : Int), (3 : Int)) = '.')
    (h0 : b ((0 : Int), (0 : Int)) = 'r') :
    (undo_move (make_move b ⟨(0, 4), (0, 2), none, true, false⟩ st).2.1
      (make_move b ⟨(0, 4), (0, 2), none, true, false⟩ st).1
      (make_move b ⟨(0, 4), (0, 2), none, true, false⟩ st).2.2).1 = b := by
  simp only [make_move, undo_move]
  dsimp only
  norm_num [hK, bset, Prod.mk.injEq, -Prod.mk_zero_zero]
  funext q
  obtain ⟨qr, qc⟩ := q
  by_cases h1 : qr = (0 : Int) ∧ qc = (4 : Int)
  · simp_all [bset, Prod.mk.injEq, -Prod.mk_zero_zero]
  by_cases h2 : qr = (0 : Int) ∧ qc = (3 : Int)
  · simp_all [bset, Prod.mk.injEq, -Prod.mk_zero_zero]
  by_cases hb3 : qr = (0 : Int) ∧ qc = (2 : Int)
  · simp_all [bset, Prod.mk.injEq, -Prod.mk_zero_zero]
  by_cases h4 : qr = (0 : Int) ∧ qc = (0 : Int)
  · simp_all [bset, Prod.mk.injEq, -Prod.mk_zero_zero]
  · simp_all [bset, Prod.mk.injEq, -Prod.mk_zero_zero]
    split_ifs <;> simp_all

/-- The four generator promotion choices never produce a king character. -/
theorem get_promoted_piece_ne_king (pr : Char) (hpr : pr ∈ ['q', 'r', 'b', 'n'])
    (u : Bool) : get_promoted_piece pr u ≠ 'K' ∧ get_promoted_piece pr u ≠ 'k' := by
  fin_cases hpr <;> cases u <;> simp [get_promoted_piece]

/-- A king's pseudolegal destinations never change the file by more than
one (the eight fixed offsets). -/
theorem king_dest_col (b : Board) (wob : Bool) (lpm : Option Pos) (p e : Pos)
    (hch : b p = 'K' ∨ b p = 'k') (he : e ∈ calculate_valid_moves p b wob lpm) :
    (e.2 - p.2).natAbs ≤ 1 := by
  have hkm : e ∈ get_king_moves p b := by
    rcases hch with h | h <;>
      simpa [calculate_valid_moves, h] using he
  obtain ⟨pr1, pc1⟩ := p
  simp only [get_king_moves, offset_targets, List.mem_filter] at hkm
  have hcand := hkm.1
  simp only [List.mem_cons, List.not_mem_nil, or_false] at hcand
  rcases hcand with h | h | h | h | h | h | h | h <;> subst h <;> simp

/-- Inversion for White's castling generator: any produced square is c1 or
g1, the king stands on e1, and the rook/path conditions hold. -/
theorem calculate_castling_white_inv {b : Board} {wob : Bool}
    {f1 f2 f3 f4 f5 f6 : Bool} {row col : Int} {e : Pos}
    (he : e ∈ calculate_castling_moves row col 'K' b wob f1 f2 f3 f4 f5 f6) :
    row = 7 ∧ col = 4 ∧
      ((e = ((7 : Int), (2 : Int)) ∧ b (7, 0) = 'R' ∧ b (7, 1) = '.' ∧ b (7, 2) = '.' ∧
          b (7, 3) = '.') ∨
        (e = ((7 : Int), (6 : Int)) ∧ b (7, 7) = 'R' ∧ b (7, 5) = '.' ∧ b (7, 6) = '.')) := by
  simp only [calculate_castling_moves] at he
  norm_num at he
  split_ifs at he with h1 <;> simp_all [Prod.mk.injEq] <;> try tauto

/-- Inversion for Black's castling generator. -/
theorem calculate_castling_black_inv {b : Board} {wob : Bool}
    {f1 f2 f3 f4 f5 f6 : Bool} {row col : Int} {e : Pos}
    (he : e ∈ calculate_castling_moves row col 'k' b wob f1 f2 f3 f4 f5 f6) :
    row = 0 ∧ col = 4 ∧
      ((e = ((0 : Int), (2 : Int)) ∧ b (0, 0) = 'r' ∧ b (0, 1) = '.' ∧ b (0, 2) = '.' ∧
          b (0, 3) = '.') ∨
        (e = ((0 : Int), (6 : Int)) ∧ b (0, 7) = 'r' ∧ b (0, 5) = '.' ∧ b (0, 6) = '.')) := by
  simp only [calculate_castling_moves] at he
  norm_num at he
  split_ifs at he with h1 <;> simp_all [Prod.mk.injEq, -Prod.mk_zero_zero] <;> try tauto



/-- **C1.** For every move produced by `generate_legal_moves` on any board
and state (in particular every reachable one), `undo_move` applied to the
`Undo` record returned by `make_move` restores the board and the
`SearchState` bit-identically: all six castling flags, `last_pawn_move`,
and every square, including for castling, en-passant captures, and
promotion moves. -/
theorem generated_move_roundtrip (b : Board) (st : SearchState) (side : String)
    (mv : Move) (hmem : mv ∈ generate_legal_moves b side st) :
    undo_move (make_move b mv st).2.1 (make_move b mv st).1 (make_move b mv st).2.2 =
      (b, st) := by
  have hstate := make_undo_state b st mv
  have hboard : (undo_move (make_move b mv st).2.1 (make_move b mv st).1
      (make_move b mv st).2.2).1 = b := by
    rcases List.mem_append.1 hmem with hn | hc
    · obtain ⟨p, hp, hmv⟩ := List.mem_flatMap.1 hn
      simp only [normal_moves_at] at hmv
      split_ifs at hmv with h1 h2
      · exact absurd hmv (List.not_mem_nil mv)
      · obtain ⟨e, he, hcand⟩ := List.mem_flatMap.1 hmv
        simp only [move_candidates] at hcand
        split_ifs at hcand with hlc hpd hprom
        · exact absurd hcand (List.not_mem_nil mv)
        · exact absurd hcand (List.not_mem_nil mv)
        · obtain ⟨pr, hprmem, heq⟩ := List.mem_map.1 hcand
          obtain ⟨pr1, pc1⟩ := p
          obtain ⟨er1, ec1⟩ := e
          obtain rfl := heq
          exact make_undo_board_noncastle b st pr1 pc1 er1 ec1 _ _
            (fun pr' hpr' => by
              obtain rfl : get_promoted_piece pr (b (pr1, pc1)).isUpper = pr' :=
                Option.some.inj hpr'
              exact get_promoted_piece_ne_king pr hprmem _)
            (fun hnone => by simp at hnone)
        · obtain ⟨pr1, pc1⟩ := p
          obtain ⟨er1, ec1⟩ := e
          obtain rfl := List.mem_singleton.1 hcand
          exact make_undo_board_noncastle b st pr1 pc1 er1 ec1 _ _
            (fun pr' hpr' => by simp at hpr')
            (fun _ hKk => by
              have hle := king_dest_col b st.white_on_bottom st.last_pawn_move
                (pr1, pc1) (er1, ec1) hKk he
              simp only at hle
              omega)
      · exact absurd hmv (List.not_mem_nil mv)
    · obtain ⟨p, hp, hmv⟩ := List.mem_flatMap.1 hc
      simp only [castle_moves_at] at hmv
      split_ifs at hmv with h1 h2 h3
      · exact absurd hmv (List.not_mem_nil mv)
      · obtain ⟨e, he, heq⟩ := List.mem_map.1 hmv
        have he2 := (List.mem_filter.1 he).1
        rw [h2.2] at he2
        obtain ⟨pr1, pc1⟩ := p
        obtain ⟨hr, hcol, hcase⟩ := calculate_castling_white_inv he2
        simp only at hr hcol
        subst hr
        subst hcol
        rcases hcase with ⟨hee, hc0, hc1, hc2, hc3⟩ | ⟨hee, hc7, hc5, hc6⟩
        · subst hee
          obtain rfl := heq
          exact make_undo_board_castle_wq b st h2.2 hc3 hc0
        · subst hee
          obtain rfl := heq
          exact make_undo_board_castle_wk b st h2.2 hc5 hc7
      · obtain ⟨e, he, heq⟩ := List.mem_map.1 hmv
        have he2 := (List.mem_filter.1 he).1
        rw [h3.2] at he2
        obtain ⟨pr1, pc1⟩ := p
        obtain ⟨hr, hcol, hcase⟩ := calculate_castling_black_inv he2
        simp only at hr hcol
        subst hr
        subst hcol
        rcases hcase with ⟨hee, hc0, hc1, hc2, hc3⟩ | ⟨hee, hc7, hc5, hc6⟩
        · subst hee
          obtain rfl := heq
          exact make_undo_board_castle_bq b st h3.2 hc3 hc0
        · subst hee
          obtain rfl := heq
          exact make_undo_board_castle_bk b st h3.2 hc5 hc7
      · exact absurd hmv (List.not_mem_nil mv)
  rw [Prod.ext_iff]
  exact ⟨hboard, hstate⟩


/-- A sparse position: white king a8-corner area (internal (0,0)), black
rook (7,1), black king (7,7); White's only legal move is (0,0) -> (1,0). -/
def tiny_board : Board :=
  boardOfRows
    [['K', '.', '.', '.', '.', '.', '.', '.'],
     ['.', '.', '.', '.', '.', '.', '.', '.'],
     ['.', '.', '.', '.', '.', '.', '.', '.'],
     ['.', '.', '.', '.', '.', '.', '.', '.'],
     ['.', '.', '.', '.', '.', '.', '.', '.'],
     ['.', '.', '.', '.', '.', '.', '.', '.'],
     ['.', '.', '.', '.', '.', '.', '.', '.'],
     ['.', 'r', '.', '.', '.', '.', '.', 'k']]

/-- Witness for C1 at a concrete generated move. -/
theorem generated_move_roundtrip_witness :
    (⟨(0, 0), (1, 0), none, false, false⟩ : Move) ∈
        generate_legal_moves tiny_board "white" init_state ∧
      undo_move
          (make_move tiny_board ⟨(0, 0), (1, 0), none, false, false⟩ init_state).2.1
          (make_move tiny_board ⟨(0, 0), (1, 0), none, false, false⟩ init_state).1
          (make_move tiny_board ⟨(0, 0), (1, 0), none, false, false⟩ init_state).2.2 =
        (tiny_board, init_state) :=
  ⟨by decide, generated_move_roundtrip tiny_board init_state "white" _ (by decide)⟩

/-- Triangle-inequality bound for a sum over a mapped list. -/
theorem sum_map_abs_le {α : Type} (l : List α) (f : α → Int) (B : Int)
    (h : ∀ x ∈ l, |f x| ≤ B) : |(l.map f).sum| ≤ l.length * B := by
  induction l with
  | nil => simp
  | cons a t ih =>
    simp only [List.map_cons, List.sum_cons, List.length_cons]
    calc |f a + (t.map f).sum| ≤ |f a| + |(t.map f).sum| := abs_add _ _
      _ ≤ B + t.length * B :=
        add_le_add (h a (List.mem_cons_self a t))
          (ih fun x hx => h x (List.mem_cons_of_mem _ hx))
      _ = (t.length + 1) * B := by ring

/-- A property holding for every member and the default holds for `getD`. -/
theorem getD_prop {α : Type} {P : α → Prop} {l : List α} {d : α}
    (hl : ∀ x ∈ l, P x) (hd : P d) (n : Nat) : P (l.getD n d) := by
  rw [List.getD_eq_getD_get?]
  cases h : l.get? n with
  | none => simpa using hd
  | some x => simpa using hl x (List.get?_mem h)

/-- A uniform entry bound transfers to every `table_at` lookup. -/
theorem table_at_abs_le (t : List (List Int)) (B : Int) (hB : 0 ≤ B)
    (h : ∀ row ∈ t, ∀ x ∈ row, |x| ≤ B) (r c : Int) : |table_at t r c| ≤ B := by
  unfold table_at
  refine getD_prop (P := fun x : Int => |x| ≤ B) ?_ (by simpa using hB) c.toNat
  intro x hx
  revert x
  refine getD_prop (P := fun row : List Int => ∀ x ∈ row, |x| ≤ B) h ?_ r.toNat
  intro x hx
  simp at hx

/-- `PIECE_VALUES` entries lie in `[0, 900]`. -/
theorem piece_value_bounds (c : Char) : 0 ≤ piece_value c ∧ piece_value c ≤ 900 := by
  unfold piece_value
  split_ifs <;> norm_num

/-- Material is bounded by 64 squares times the queen value. -/
theorem material_term_abs_le (b : Board) : |material_term b| ≤ 57600 := by
  have hlen : squares64.length = 64 := by decide
  unfold material_term
  refine le_trans (sum_map_abs_le _ _ 900 ?_) ?_
  · intro p _
    dsimp only
    have hv := piece_value_bounds (b p).toUpper
    split_ifs <;> rw [abs_le] <;> constructor <;> omega
  · rw [hlen]
    norm_num

/-- Piece-square total is bounded by 64 times the largest table entry. -/
theorem piece_square_term_abs_le (b : Board) : |piece_square_term b| ≤ 3200 := by
  have hP : ∀ row ∈ PAWN_TABLE, ∀ x ∈ row, |x| ≤ (50 : Int) := by decide
  have hN : ∀ row ∈ KNIGHT_TABLE, ∀ x ∈ row, |x| ≤ (50 : Int) := by decide
  have hB : ∀ row ∈ BISHOP_TABLE, ∀ x ∈ row, |x| ≤ (50 : Int) := by decide
  have hR : ∀ row ∈ ROOK_TABLE, ∀ x ∈ row, |x| ≤ (50 : Int) := by decide
  have hQ : ∀ row ∈ QUEEN_TABLE, ∀ x ∈ row, |x| ≤ (50 : Int) := by decide
  have hK : ∀ row ∈ KING_TABLE, ∀ x ∈ row, |x| ≤ (50 : Int) := by decide
  have hlen : squares64.length = 64 := by decide
  have t1 : ∀ r c : Int, |table_at PAWN_TABLE r c| ≤ 50 :=
    fun r c => table_at_abs_le _ _ (by norm_num) hP r c
  have t2 : ∀ r c : Int, |table_at KNIGHT_TABLE r c| ≤ 50 :=
    fun r c => table_at_abs_le _ _ (by norm_num) hN r c
  have t3 : ∀ r c : Int, |table_at BISHOP_TABLE r c| ≤ 50 :=
    fun r c => table_at_abs_le _ _ (by norm_num) hB r c
  have t4 : ∀ r c : Int, |table_at ROOK_TABLE r c| ≤ 50 :=
    fun r c => table_at_abs_le _ _ (by norm_num) hR r c
  have t5 : ∀ r c : Int, |table_at QUEEN_TABLE r c| ≤ 50 :=
    fun r c => table_at_abs_le _ _ (by norm_num) hQ r c
  have t6 : ∀ r c : Int, |table_at KING_TABLE r c| ≤ 50 :=
    fun r c => table_at_abs_le _ _ (by norm_num) hK r c
  unfold piece_square_term
  refine le_trans (sum_map_abs_le _ _ 50 ?_) ?_
  · intro p _
    dsimp only
    split_ifs
    · norm_num
    · exact t1 _ _
    · rw [abs_neg]; exact t1 _ _
    · exact t2 _ _
    · rw [abs_neg]; exact t2 _ _
    · exact t3 _ _
    · rw [abs_neg]; exact t3 _ _
    · exact t4 _ _
    · rw [abs_neg]; exact t4 _ _
    · exact t5 _ _
    · rw [abs_neg]; exact t5 _ _
    · exact t6 _ _
    · rw [abs_neg]; exact t6 _ _
    · norm_num
  · rw [hlen]
    norm_num


/-- Doubled-pawn term bounded per file by 140. -/
theorem doubled_pawn_penalty_abs_le (b : Board) : |doubled_pawn_penalty b| ≤ 1120 := by
  have hlen : (List.range 8).length = 8 := by decide
  unfold doubled_pawn_penalty
  refine le_trans (sum_map_abs_le _ _ 140 ?_) ?_
  · intro file _
    dsimp only
    have hw : ((List.range 8).filter fun rank =>
        b (Int.ofNat rank, Int.ofNat file) = 'P').length ≤ 8 :=
      le_trans (List.length_filter_le _ _) (by simp)
    have hb : ((List.range 8).filter fun rank =>
        b (Int.ofNat rank, Int.ofNat file) = 'p').length ≤ 8 :=
      le_trans (List.length_filter_le _ _) (by simp)
    split_ifs <;> rw [abs_le] <;> constructor <;> push_cast <;> omega
  · rw [hlen]
    norm_num

/-- Isolated-pawn term bounded per square by 15. -/
theorem isolated_pawn_penalty_abs_le (b : Board) : |isolated_pawn_penalty b| ≤ 960 := by
  have hlen : squares64.length = 64 := by decide
  unfold isolated_pawn_penalty
  refine le_trans (sum_map_abs_le _ _ 15 ?_) ?_
  · intro p _
    dsimp only
    split_ifs <;> norm_num
  · rw [hlen]
    norm_num

/-- Passed-pawn term bounded per square by 70. -/
theorem passed_pawn_bonus_abs_le (b : Board) : |passed_pawn_bonus b| ≤ 4480 := by
  have hlen : squares64.length = 64 := by decide
  unfold passed_pawn_bonus
  refine le_trans (sum_map_abs_le _ _ 70 ?_) ?_
  · intro p hp
    obtain ⟨h1, h2, -, -⟩ := mem_squares64.1 hp
    dsimp only
    split_ifs <;> rw [abs_le] <;> constructor <;> omega
  · rw [hlen]
    norm_num

/-- King-safety term is bounded by 50. -/
theorem king_safety_term_abs_le (b : Board) : |king_safety_term b| ≤ 50 := by
  unfold king_safety_term
  dsimp only
  split_ifs <;> rw [abs_le] <;> constructor <;> norm_num

/-- The static evaluation is bounded far below `INF`. -/
theorem evaluate_abs_le (b : Board) (s : String) : |evaluate b s| ≤ 67410 := by
  obtain ⟨h1a, h1b⟩ := abs_le.1 (material_term_abs_le b)
  obtain ⟨h2a, h2b⟩ := abs_le.1 (piece_square_term_abs_le b)
  obtain ⟨h3a, h3b⟩ := abs_le.1 (doubled_pawn_penalty_abs_le b)
  obtain ⟨h4a, h4b⟩ := abs_le.1 (isolated_pawn_penalty_abs_le b)
  obtain ⟨h5a, h5b⟩ := abs_le.1 (passed_pawn_bonus_abs_le b)
  obtain ⟨h6a, h6b⟩ := abs_le.1 (king_safety_term_abs_le b)
  unfold evaluate pawn_structure_term
  rw [abs_le]
  constructor <;> linarith

/-- Stable descending insertion grows the length by one. -/
theorem length_insert_desc (key : Move → Int) (mv : Move) :
    ∀ l : List Move, (insert_desc key mv l).length = l.length + 1 := by
  intro l
  induction l with
  | nil => simp [insert_desc]
  | cons a t ih => simp only [insert_desc]; split_ifs <;> simp [ih]

/-- Membership in a stable descending insertion. -/
theorem mem_insert_desc (key : Move → Int) (mv x : Move) :
    ∀ l : List Move, (x ∈ insert_desc key mv l ↔ x = mv ∨ x ∈ l) := by
  intro l
  induction l with
  | nil => simp [insert_desc]
  | cons a t ih =>
    simp only [insert_desc]
    split_ifs <;> simp [ih] <;> tauto

/-- The move ordering is a permutation: membership is preserved. -/
theorem mem_sort_moves (b : Board) (moves : List Move) (x : Move) :
    x ∈ sort_moves b moves ↔ x ∈ moves := by
  unfold sort_moves
  induction moves with
  | nil => simp
  | cons a t ih => simp [mem_insert_desc, ih]

/-- Sorting preserves length. -/
theorem length_sort_moves (b : Board) (moves : List Move) :
    (sort_moves b moves).length = moves.length := by
  unfold sort_moves
  induction moves with
  | nil => simp
  | cons a t ih => simp [length_insert_desc, ih]

/-- Sorting a non-empty move list yields a non-empty list. -/
theorem sort_moves_ne_nil (b : Board) (moves : List Move) (h : moves ≠ []) :
    sort_moves b moves ≠ [] := by
  have hlen := length_sort_moves b moves
  intro habs
  rw [habs] at hlen
  exact h (List.length_eq_zero.1 hlen.symm)

/-- The alpha-beta loop stays strictly inside the open interval whenever
every child score does and the running value cannot survive at `-INF`. -/
theorem nega_loop_bound (b : Board) (st : SearchState)
    (child : Board → SearchState → Int → Int) (beta : Int)
    (hchild : ∀ b' st' a, -INF < child b' st' a ∧ child b' st' a < INF) :
    ∀ (l : List Move) (value alpha : Int), value < INF → (l = [] → -INF < value) →
      -INF < nega_loop b st child beta l value alpha ∧
        nega_loop b st child beta l value alpha < INF := by
  intro l
  induction l with
  | nil =>
    intro value alpha h1 h2
    exact ⟨h2 rfl, h1⟩
  | cons mv rest ih =>
    intro value alpha h1 h2
    simp only [nega_loop]
    obtain ⟨hc1, hc2⟩ := hchild (make_move b mv st).2.1 (make_move b mv st).2.2 alpha
    by_cases hsv : child (make_move b mv st).2.1 (make_move b mv st).2.2 alpha > value
    · simp only [if_pos hsv]
      by_cases hab : (if child (make_move b mv st).2.1 (make_move b mv st).2.2 alpha > alpha
          then child (make_move b mv st).2.1 (make_move b mv st).2.2 alpha else alpha) ≥ beta
      · simp only [if_pos hab]
        exact ⟨hc1, hc2⟩
      · simp only [if_neg hab]
        exact ih _ _ hc2 (fun _ => hc1)
    · simp only [if_neg hsv]
      have hvl : -INF < value := lt_of_lt_of_le hc1 (not_lt.1 hsv)
      by_cases hab : (if value > alpha then value else alpha) ≥ beta
      · simp only [if_pos hab]
        exact ⟨hvl, h1⟩
      · simp only [if_neg hab]
        exact ih _ _ h1 (fun _ => hvl)


/-- `nega_max` always returns a value strictly between `-INF` and `INF`
for the colour convention: mate is `-INF + 1`, stalemate 0, static
evaluations are tiny, and the loop only propagates negated child values. -/
theorem nega_max_bound :
    ∀ (depth : Nat) (b : Board) (alpha beta colour : Int) (st : SearchState),
      colour = 1 ∨ colour = -1 →
      -INF < nega_max depth b alpha beta colour st ∧
        nega_max depth b alpha beta colour st < INF := by
  have hINF : (0 : Int) < INF := by norm_num [INF]
  intro depth
  induction depth with
  | zero =>
    intro b alpha beta colour st hcol
    simp only [nega_max]
    split_ifs with h1 h2
    · constructor <;> linarith
    · constructor <;> linarith
    · obtain ⟨hea, heb⟩ := abs_le.1 (evaluate_abs_le b "w")
      have h67 : (67410 : Int) < INF := by norm_num [INF]
      rcases hcol with rfl | rfl <;> constructor <;>
        simp only [one_mul, neg_one_mul, neg_mul] <;> linarith
  | succ d ih =>
    intro b alpha beta colour st hcol
    simp only [nega_max]
    split_ifs with h1 h2
    · constructor <;> linarith
    · constructor <;> linarith
    · refine nega_loop_bound b st _ beta ?_ _ (-INF) alpha (by linarith) ?_
      · intro b' st' a
        have hih := ih b' (-beta) (-a) (-colour) st'
          (by rcases hcol with rfl | rfl <;> simp)
        constructor <;> linarith [hih.1, hih.2]
      · intro hnil
        exact absurd hnil (sort_moves_ne_nil b _ h1)

/-- The mate-in-one shortcut returns a member of its input list. -/
theorem find_mate_in_one_mem (b : Board) (st : SearchState) (opp : String) :
    ∀ (l : List Move) (mv : Move), find_mate_in_one b st opp l = some mv → mv ∈ l := by
  intro l
  induction l with
  | nil => intro mv h; simp [find_mate_in_one] at h
  | cons a t ih =>
    intro mv h
    simp only [find_mate_in_one] at h
    split_ifs at h with hc
    · exact (Option.some.inj h) ▸ List.mem_cons_self a t
    · exact List.mem_cons_of_mem _ (ih mv h)

/-- The root loop returns its incoming best move or a member of the list. -/
theorem root_loop_mem (b : Board) (st : SearchState) (depth : Nat) (colour : Int) :
    ∀ (l : List Move) (s : Int) (best : Option Move) (mv : Move),
      root_loop b st depth colour l s best = some mv → best = some mv ∨ mv ∈ l := by
  intro l
  induction l with
  | nil => intro s best mv h; exact Or.inl h
  | cons a t ih =>
    intro s best mv h
    simp only [root_loop] at h
    split_ifs at h with hgt
    · rcases ih _ _ _ h with h2 | h2
      · exact Or.inr ((Option.some.inj h2) ▸ List.mem_cons_self a t)
      · exact Or.inr (List.mem_cons_of_mem _ h2)
    · rcases ih _ _ _ h with h2 | h2
      · exact Or.inl h2
      · exact Or.inr (List.mem_cons_of_mem _ h2)

/-- Once the root loop holds a `some` best move it never returns `none`. -/
theorem root_loop_some (b : Board) (st : SearchState) (depth : Nat) (colour : Int) :
    ∀ (l : List Move) (s : Int) (m : Move),
      root_loop b st depth colour l s (some m) ≠ none := by
  intro l
  induction l with
  | nil => intro s m h; simp [root_loop] at h
  | cons a t ih =>
    intro s m h
    simp only [root_loop] at h
    split_ifs at h with hgt
    · exact ih _ _ h
    · exact ih _ _ h

/-- **C10.** `find_best_move` returns `none` iff the side to move has no
legal moves; whenever `generate_legal_moves` is non-empty it returns `some`
move from that list, because the first candidate score strictly exceeds
the initial `-INF` best score. -/
theorem find_best_move_none_iff (b : Board) (side : String) (depth : Nat)
    (st : SearchState) :
    (find_best_move b side depth st = none ↔ generate_legal_moves b side st = []) ∧
      ∀ mv, find_best_move b side depth st = some mv →
        mv ∈ generate_legal_moves b side st := by
  simp only [find_best_move]
  by_cases h1 : generate_legal_moves b side st = []
  · simp only [if_pos h1]
    constructor
    · simp [h1]
    · intro mv h
      simp at h
  · simp only [if_neg h1]
    cases hfm : find_mate_in_one b st (if side = "white" then "black" else "white")
        (generate_legal_moves b side st) with
    | some m =>
      simp only [hfm]
      constructor
      · constructor
        · intro habs
          simp at habs
        · intro habs
          exact absurd habs h1
      · intro mv h
        exact find_mate_in_one_mem b st _ _ mv (hfm.trans h)
    | none =>
      simp only [hfm]
      cases hs : sort_moves b (generate_legal_moves b side st) with
      | nil => exact absurd hs (sort_moves_ne_nil b _ h1)
      | cons m0 rest =>
        simp only [root_loop]
        have hcol : (if side = "white" then (1 : Int) else -1) = 1 ∨
            (if side = "white" then (1 : Int) else -1) = -1 := by
          split_ifs <;> simp
        have hb := nega_max_bound (depth - 1) (make_move b m0 st).2.1 (-INF) INF
          (-(if side = "white" then (1 : Int) else -1)) (make_move b m0 st).2.2
          (by rcases hcol with h | h <;> rw [h] <;> norm_num)
        have hscore : -nega_max (depth - 1) (make_move b m0 st).2.1 (-INF) INF
            (-(if side = "white" then (1 : Int) else -1)) (make_move b m0 st).2.2 > -INF := by
          linarith [hb.2]
        rw [if_pos hscore]
        constructor
        · constructor
          · intro habs
            exact absurd habs (root_loop_some b st depth _ rest _ m0)
          · intro habs
            exact absurd habs h1
        · intro mv h
          rcases root_loop_mem b st depth _ rest _ _ mv h with h2 | h2
          · have hmem : mv ∈ sort_moves b (generate_legal_moves b side st) := by
              rw [hs]
              exact (Option.some.inj h2) ▸ List.mem_cons_self m0 rest
            exact (mem_sort_moves b _ mv).1 hmem
          · have hmem : mv ∈ sort_moves b (generate_legal_moves b side st) := by
              rw [hs]
              exact List.mem_cons_of_mem _ h2
            exact (mem_sort_moves b _ mv).1 hmem


/-- Witness for C10 at the one-legal-move position. -/
theorem find_best_move_none_iff_witness :
    find_best_move tiny_board "white" 1 init_state =
        some ⟨(0, 0), (1, 0), none, false, false⟩ ∧
      (⟨(0, 0), (1, 0), none, false, false⟩ : Move) ∈
        generate_legal_moves tiny_board "white" init_state :=
  ⟨by decide,
    (find_best_move_none_iff tiny_board "white" 1 init_state).2 _ (by decide)⟩


/-- After any `make_move`, the en-passant target is either the destination
square of the move (pawn double-push) or cleared. -/
theorem make_move_lpm (b : Board) (mv : Move) (st : SearchState) :
    (make_move b mv st).2.2.last_pawn_move = some mv.endp ∨
      (make_move b mv st).2.2.last_pawn_move = none := by
  obtain ⟨⟨sr, sc⟩, ⟨er, ec⟩, promo, castle, isep⟩ := mv
  simp only [make_move]
  dsimp only
  split_ifs <;> simp

/-- Any generated move carrying the en-passant flag belongs to the side to
move and passed the `en_passant` re-check against the current target. -/
theorem mem_generate_ep_inv (b : Board) (side : String) (st : SearchState) (mv : Move)
    (h : mv ∈ generate_legal_moves b side st) (hep : mv.is_en_passant = true) :
    ((side = "white" ∧ (b mv.start).isUpper = true) ∨
        (side = "black" ∧ (b mv.start).isLower = true)) ∧
      en_passant mv.start mv.endp (b mv.start) b st.last_pawn_move
        st.white_on_bottom = true := by
  rcases List.mem_append.1 h with hn | hc
  · obtain ⟨p, hp, hmv⟩ := List.mem_flatMap.1 hn
    simp only [normal_moves_at] at hmv
    split_ifs at hmv with h1 h2
    · exact absurd hmv (List.not_mem_nil mv)
    · obtain ⟨e, he, hcand⟩ := List.mem_flatMap.1 hmv
      simp only [move_candidates] at hcand
      split_ifs at hcand with hlc hpd hprom
      · exact absurd hcand (List.not_mem_nil mv)
      · exact absurd hcand (List.not_mem_nil mv)
      · obtain ⟨pr, hprmem, heq⟩ := List.mem_map.1 hcand
        rw [← heq] at hep
        simp at hep
      · obtain rfl := List.mem_singleton.1 hcand
        simp only [Move.is_en_passant] at hep
        rw [decide_eq_true_eq] at hep
        obtain ⟨hpawn, hempty, hc1, hr1⟩ := hep
        refine ⟨h2, ?_⟩
        by_cases hepv : en_passant p e (b p) b st.last_pawn_move st.white_on_bottom = true
        · exact hepv
        · exact absurd ⟨hpawn, hempty, hc1, hr1, Bool.not_eq_true _ ▸
            (Bool.eq_false_iff.2 (fun habs => hepv habs))⟩ hpd
    · exact absurd hmv (List.not_mem_nil mv)
  · obtain ⟨p, hp, hmv⟩ := List.mem_flatMap.1 hc
    simp only [castle_moves_at] at hmv
    split_ifs at hmv with h1 h2 h3
    · exact absurd hmv (List.not_mem_nil mv)
    · obtain ⟨e, he, heq⟩ := List.mem_map.1 hmv
      rw [← heq] at hep
      simp at hep
    · obtain ⟨e, he, heq⟩ := List.mem_map.1 hmv
      rw [← heq] at hep
      simp at hep
    · exact absurd hmv (List.not_mem_nil mv)


/-- The en-passant destination is produced by `get_pawn_moves` when the
target matches the adjacent enemy pawn. -/
theorem ep_mem_get_pawn_moves (bd : Board) (wob : Bool) (c cp : Int)
    (hcc : cp = c + 1 ∨ cp = c - 1) (hc : 0 ≤ c ∧ c < 8) (hcp : 0 ≤ cp ∧ cp < 8)
    (hP : bd (3, cp) = 'P') (hp : bd (3, c) = 'p') (hE : bd (2, c) = '.') :
    ((2 : Int), c) ∈ get_pawn_moves (3, cp) bd wob (some ((3 : Int), c)) := by
  have hup : ('P' : Char).isUpper = true := by decide
  simp only [get_pawn_moves, hP, get_pawn_direction, get_pawn_start_row, hup, if_true]
  rcases hcc with rfl | rfl
  · simp [hp, hE, show c + 1 > 0 from by omega, show (0 : Int) ≤ c from hc.1,
      show c < 8 from hc.2]
  · simp [hp, hE, show c - 1 < 7 from by omega, show (0 : Int) ≤ c from hc.1,
      show c < 8 from hc.2]

/-- **C7.** The en-passant window lasts exactly one ply.  After a black
two-square pawn advance to `(3, c)` beside a white pawn, the en-passant
capture into the vacated square `(2, c)` is generated for White (provided,
as always, it passes the check filter); and after any single further
`make_move` whose destination is not `(3, c)` (the only square whose
double-push could re-establish the same target, and it is occupied), that
same en-passant move is no longer generated. -/
theorem en_passant_window_one_ply (b : Board) (st : SearchState) (c c' : Int)
    (hc : 0 ≤ c ∧ c < 8) (hc' : 0 ≤ c' ∧ c' < 8) (hcc' : c' = c + 1 ∨ c' = c - 1)
    (hbp : b (1, c) = 'p') (hb2 : b (2, c) = '.') (hb3 : b (3, c) = '.')
    (hP : b (3, c') = 'P')
    (hlc : leaves_king_in_check (3, c') (2, c)
        (make_move b ⟨(1, c), (3, c), none, false, false⟩ st).2.1 "white"
        (make_move b ⟨(1, c), (3, c), none, false, false⟩ st).2.2.white_on_bottom
        (make_move b ⟨(1, c), (3, c), none, false, false⟩ st).2.2.last_pawn_move
        = false) :
    (⟨(3, c'), (2, c), none, false, true⟩ : Move) ∈
        generate_legal_moves (make_move b ⟨(1, c), (3, c), none, false, false⟩ st).2.1
          "white" (make_move b ⟨(1, c), (3, c), none, false, false⟩ st).2.2 ∧
      ∀ m₂ : Move, m₂.endp ≠ (3, c) →
        (⟨(3, c'), (2, c), none, false, true⟩ : Move) ∉
          generate_legal_moves
            (make_move (make_move b ⟨(1, c), (3, c), none, false, false⟩ st).2.1 m₂
              (make_move b ⟨(1, c), (3, c), none, false, false⟩ st).2.2).2.1
            "white"
            (make_move (make_move b ⟨(1, c), (3, c), none, false, false⟩ st).2.1 m₂
              (make_move b ⟨(1, c), (3, c), none, false, false⟩ st).2.2).2.2 := by
  have hne : c' ≠ c := by rcases hcc' with rfl | rfl <;> omega
  have hb' : (make_move b ⟨(1, c), (3, c), none, false, false⟩ st).2.1 =
      bset (bset b (1, c) '.') (3, c) 'p' := by
    simp only [make_move]
    dsimp only
    rw [hbp]
    norm_num
  have hlpm' : (make_move b ⟨(1, c), (3, c), none, false, false⟩ st).2.2.last_pawn_move =
      some (3, c) := by
    simp only [make_move]
    dsimp only
    rw [hbp]
    norm_num
  have hne1 : ((3, c') : Pos) ≠ (3, c) := by
    rw [Ne, Prod.mk.injEq]
    rintro ⟨-, h⟩
    exact hne h
  have hne2 : ((3, c') : Pos) ≠ (1, c) := by
    rw [Ne, Prod.mk.injEq]
    rintro ⟨h, -⟩
    exact absurd h (by norm_num)
  have hne3 : ((2, c) : Pos) ≠ (3, c) := by
    rw [Ne, Prod.mk.injEq]
    rintro ⟨h, -⟩
    exact absurd h (by norm_num)
  have hne4 : ((2, c) : Pos) ≠ (1, c) := by
    rw [Ne, Prod.mk.injEq]
    rintro ⟨h, -⟩
    exact absurd h (by norm_num)
  have hP' : (make_move b ⟨(1, c), (3, c), none, false, false⟩ st).2.1 (3, c') = 'P' := by
    rw [hb', bset_ne _ _ _ hne1, bset_ne _ _ _ hne2]
    exact hP
  have hE' : (make_move b ⟨(1, c), (3, c), none, false, false⟩ st).2.1 (2, c) = '.' := by
    rw [hb', bset_ne _ _ _ hne3, bset_ne _ _ _ hne4]
    exact hb2
  have hp3 : (make_move b ⟨(1, c), (3, c), none, false, false⟩ st).2.1 (3, c) = 'p' := by
    rw [hb']
    exact bset_same _ _ _
  have hepT : en_passant (3, c') (2, c) 'P'
      (make_move b ⟨(1, c), (3, c), none, false, false⟩ st).2.1
      (make_move b ⟨(1, c), (3, c), none, false, false⟩ st).2.2.last_pawn_move
      (make_move b ⟨(1, c), (3, c), none, false, false⟩ st).2.2.white_on_bottom
      = true := by
    simp only [en_passant, get_pawn_direction]
    norm_num [hE', hlpm']
    rcases hcc' with rfl | rfl <;>
      norm_num [hp3, show ('P' : Char).isUpper = true from by decide]
  constructor
  · apply List.mem_append.2
    left
    apply List.mem_flatMap.2
    refine ⟨(3, c'), mem_squares64.2 ⟨by norm_num, by norm_num, hc'.1, hc'.2⟩, ?_⟩
    simp only [normal_moves_at]
    rw [hP']
    rw [if_neg (by decide : ¬('P' : Char) = '.')]
    rw [if_pos (Or.inl ⟨trivial, by decide⟩ :
      (True ∧ ('P' : Char).isUpper = true) ∨
        ("white" = "black" ∧ ('P' : Char).isLower = true))]
    apply List.mem_flatMap.2
    refine ⟨(2, c), ?_, ?_⟩
    · simp only [calculate_valid_moves, hP']
      norm_num
      rw [hlpm']
      exact ep_mem_get_pawn_moves _ _ c c' hcc' hc hc' hP' hp3 hE'
    · simp only [move_candidates]
      rw [if_neg, if_neg, if_neg]
      · apply List.mem_singleton.2
        have habs1 : (c - c').natAbs = 1 := by rcases hcc' with rfl | rfl <;> omega
        simp only [Move.mk.injEq]
        refine ⟨trivial, trivial, trivial, trivial, ?_⟩
        symm
        rw [decide_eq_true_eq]
        exact ⟨by simp, hE', habs1, by norm_num⟩
      · simp [is_promotion_move, hP']
      · intro habs
        have h5 := habs.2.2.2.2
        rw [hepT] at h5
        exact absurd h5 (by simp)
      · rw [hlc]
        simp
  · intro m₂ hend habs
    obtain ⟨hside, hepT2⟩ := mem_generate_ep_inv _ _ _ _ habs rfl
    have hup : ((make_move (make_move b ⟨(1, c), (3, c), none, false, false⟩ st).2.1 m₂
        (make_move b ⟨(1, c), (3, c), none, false, false⟩ st).2.2).2.1
          ((3 : Int), c')).isUpper = true := by
      rcases hside with ⟨-, h⟩ | ⟨hcontra, -⟩
      · exact h
      · exact absurd hcontra (by decide)
    simp only [en_passant, hup, if_true, get_pawn_direction] at hepT2
    split_ifs at hepT2 with hcond
    · rw [decide_eq_true_eq] at hepT2
      obtain ⟨-, -, hlpm2, -⟩ := hepT2
      rcases make_move_lpm (make_move b ⟨(1, c), (3, c), none, false, false⟩ st).2.1 m₂
          (make_move b ⟨(1, c), (3, c), none, false, false⟩ st).2.2 with h | h
      · rw [h] at hlpm2
        apply hend
        have := Option.some.inj hlpm2
        rw [this]
        rw [Prod.mk.injEq]
        exact ⟨by norm_num, rfl⟩
      · rw [h] at hlpm2
        simp at hlpm2
  

/-- Black pawn on (1,4) ready to double-push beside the white pawn on
(3,3); kings tucked in opposite corners. -/
def ep_demo_board : Board :=
  boardOfRows
    [['k', '.', '.', '.', '.', '.', '.', '.'],
     ['.', '.', '.', '.', 'p', '.', '.', '.'],
     ['.', '.', '.', '.', '.', '.', '.', '.'],
     ['.', '.', '.', 'P', '.', '.', '.', '.'],
     ['.', '.', '.', '.', '.', '.', '.', '.'],
     ['.', '.', '.', '.', '.', '.', '.', '.'],
     ['.', '.', '.', '.', '.', '.', '.', '.'],
     ['.', '.', '.', '.', '.', '.', '.', 'K']]

/-- Witness for C7: after the double push (1,4)-(3,4), the capture
(3,3)x(2,4) en passant is generated; after White instead plays the king
move (7,7)-(7,6), it is not. -/
theorem en_passant_window_one_ply_witness :
    (⟨(3, 3), (2, 4), none, false, true⟩ : Move) ∈
        generate_legal_moves
          (make_move ep_demo_board ⟨(1, 4), (3, 4), none, false, false⟩ init_state).2.1
          "white"
          (make_move ep_demo_board ⟨(1, 4), (3, 4), none, false, false⟩ init_state).2.2 ∧
      (⟨(3, 3), (2, 4), none, false, true⟩ : Move) ∉
        generate_legal_moves
          (make_move
            (make_move ep_demo_board ⟨(1, 4), (3, 4), none, false, false⟩ init_state).2.1
            ⟨(7, 7), (7, 6), none, false, false⟩
            (make_move ep_demo_board ⟨(1, 4), (3, 4), none, false, false⟩
              init_state).2.2).2.1
          "white"
          (make_move
            (make_move ep_demo_board ⟨(1, 4), (3, 4), none, false, false⟩ init_state).2.1
            ⟨(7, 7), (7, 6), none, false, false⟩
            (make_move ep_demo_board ⟨(1, 4), (3, 4), none, false, false⟩
              init_state).2.2).2.2 := by
  have h := en_passant_window_one_ply ep_demo_board init_state 4 3 (by norm_num)
    (by norm_num) (Or.inr (by norm_num)) (by decide) (by decide) (by decide) (by decide)
    (by decide)
  exact ⟨h.1, h.2 ⟨(7, 7), (7, 6), none, false, false⟩ (by decide)⟩

end RedSquirrel
